import Mathlib

/-!
fairOS-dfs: feed epoch placement, directories, CSV ingest and controllers

A shallow embedding of `pkg/feed/lookup/lookup.go` (epoch placement of feed
updates), of `pkg/dir/mkdir.go` and `pkg/dir/modify_dir_entry.go` (directories
and their entries), of `kvLoadCSV`, `kvNewStore`, `docNewStore` and
`fileReceiveInfo` of `wasm/main.go`, of `pkg/dfs/doc_api.go` (the document
controllers), of `PodOpenHandler` of `pkg/api/pod_open.go` and of the map of
users of `pkg/user/users.go`, with the properties of the specification stated
and proved over it.

Machine integers are natural numbers.  A `uint64` is a `Nat` below `2^64` and a
`uint8` a `Nat` below `2^8`; the operations that can leave the range (left
shift, `uint8` subtraction) reduce explicitly.

A Go string is a Lean `String`, its `len` the size in bytes of its UTF-8
encoding.  A method on a `Directory` is a function from the state of the
directory object to the outcome of the call and the new state.  What
`mkdir.go` calls and the sources do not hold (the Go library, the packages
`utils`, `feed` and `json`) is a parameter of the embedding, `Env`; `memEnv` is
an instance of it on which the code runs.  The other files have their own
parameters (`PwEnv`, `KVEnv`, `DocEnv`, `PodEnv`, `DocStoreEnv`, `ReceiveEnv`)
and instances.
-/

namespace lookup

/-! ## Definitions: `pkg/feed/lookup/lookup.go` -/

/-- Constant `const maxuint64 = ^uint64(0)` -/
def maxuint64 : Nat := 2 ^ 64 - 1

/-- Constant `const LowestLevel uint8 = 0` -/
def LowestLevel : Nat := 0

/-- Constant `const HighestLevel = 31` -/
def HighestLevel : Nat := 31

/-- Modelled from the spec: the type `Epoch` is declared in `epoch.go`, which is
not among the sources; the spec gives "Epoch `E = (time, level)`", and
`lookup.go` builds it with the fields `Time` (a `uint64`) and `Level` (a
`uint8`). -/
structure Epoch where
  Time : Nat
  Level : Nat
  deriving DecidableEq, Repr

/-- Variable `var NoClue = Epoch{}`: the zero value. -/
def NoClue : Epoch := { Time := 0, Level := 0 }

/-- Left shift of a `uint64` by a `uint8` count: Go drops the bits shifted out,
so a count of 64 or more gives 0. -/
def shl64 (x s : Nat) : Nat := (x <<< s) % 2 ^ 64

/-- Subtraction of `uint8` values, which wraps around: `0 - 1 = 255`. -/
def sub8 (a b : Nat) : Nat := (a + 256 - b) % 256

/-- Function `func getBaseTime(t uint64, level uint8) uint64`:
`return t & (maxuint64 << level)`. -/
def getBaseTime (t level : Nat) : Nat := t &&& shl64 maxuint64 level

/-- Modelled from the spec: the method `Epoch.Base` is declared in `epoch.go`,
which is not among the sources; the spec gives "Its *base* is
`time & (~0 << level)`", which is `getBaseTime` of the two fields. -/
def Epoch.Base (e : Epoch) : Nat := getBaseTime e.Time e.Level

/-- The loop of `GetNextLevel`,
`for i := uint8(HighestLevel); i > LowestLevel; i-- { if mix&mask != 0 { return i }; mask = mask >> 1 }`
followed by `return 0`; the arguments are the current `i` and `mask`. -/
def scanLevels (mix : Nat) : Nat → Nat → Nat
  | 0, _ => 0
  | i + 1, mask => if mix &&& mask ≠ 0 then i + 1 else scanLevels mix i (mask >>> 1)

/-- The value of the variable `mix` of `GetNextLevel` after its two
assignments, `mix := last.Base() ^ now` and `mix |= 1 << (last.Level - 1)`. -/
def mixOf (last : Epoch) (now : Nat) : Nat :=
  (last.Base ^^^ now) ||| shl64 1 (sub8 last.Level 1)

/-- Function `func GetNextLevel(last Epoch, now uint64) uint8`. -/
def GetNextLevel (last : Epoch) (now : Nat) : Nat :=
  let mix := last.Base ^^^ now
  let mix := mix ||| shl64 1 (sub8 last.Level 1)
  if mix > maxuint64 >>> (64 - HighestLevel - 1) then
    HighestLevel
  else
    scanLevels mix HighestLevel (1 <<< HighestLevel)

/-- Function `func GetFirstEpoch(now uint64) Epoch`. -/
def GetFirstEpoch (now : Nat) : Epoch := { Level := HighestLevel, Time := now }

/-- Function `func GetNextEpoch(last Epoch, now uint64) Epoch`. -/
def GetNextEpoch (last : Epoch) (now : Nat) : Epoch :=
  if last = NoClue then
    GetFirstEpoch now
  else
    let level := GetNextLevel last now
    { Level := level, Time := now }

/-! ## The specification's `next_epoch` rule, in its own words -/

/-- Step 2 of `next_epoch`: "Let `mix = base(last) XOR now`, then set bit
`l_last − 1` of `mix` to 1." -/
def specMix (last : Epoch) (now : Nat) : Nat :=
  (last.Base ^^^ now) ||| 2 ^ (last.Level - 1)

/-- Step 4 of `next_epoch`: "scan bits from position 31 down to 0; return
`(now, i)` where `i` is the highest bit set in `mix`"; the argument is the
position the scan is at, and position 0 is returned when no higher bit is
set. -/
def specScan (mix : Nat) : Nat → Nat
  | 0 => 0
  | i + 1 => if mix.testBit (i + 1) then i + 1 else specScan mix i

/-- Steps 2 to 4 of `next_epoch`: the level of the epoch returned. -/
def specNextLevel (last : Epoch) (now : Nat) : Nat :=
  let mix := specMix last now
  if mix > 2 ^ 32 - 1 then 31 else specScan mix 31

end lookup

namespace dir

/-! ## Definitions: `pkg/dir/mkdir.go` -/

/-- Constant `const nameLength = 100` -/
def nameLength : Nat := 100

/-- The `error` values `MkDir` and `MkRootDir` can return: the three errors of
package `dir` that `mkdir.go` names, and the errors handed on from the `feed`
and `json` packages.  Package `dir` imports `feed`, so no error made there is
one of the variables of package `dir`. -/
inductive Error
  | ErrInvalidDirectoryName
  | ErrTooLongDirectoryName
  | ErrDirectoryAlreadyPresent
  | foreign (msg : String)
  deriving DecidableEq, Repr

/-- How a call ends: it returns `nil`, returns an error, or stops on the
dereference of a nil pointer. -/
inductive Outcome
  | nil
  | error (e : Error)
  | nilDereference
  deriving DecidableEq, Repr

/-- Modelled from the spec: the type `MetaData` is declared outside the sources
given; these are the fields `mkdir.go` sets. -/
structure MetaData where
  Version : Nat
  Path : String
  Name : String
  CreationTime : Int
  ModificationTime : Int
  AccessTime : Int
  deriving DecidableEq, Repr

/-- Modelled from the spec: the type `Inode` is declared outside the sources
given; `mkdir.go` uses the pointer field `Meta` and the slice of strings
`FileOrDirNames`. -/
structure Inode where
  Meta : Option MetaData
  FileOrDirNames : List String
  deriving DecidableEq, Repr

/-- The three results of `GetFeedData`: an address and the data, each nil or
not, and an error or nil. -/
structure FeedData (δ : Type) where
  addr : Option (List Nat)
  data : Option δ
  err : Option String

/-- A call made on the feed API. -/
inductive FeedCall (τ δ : Type)
  | GetFeedData (topic : τ)
  | CreateFeed (topic : τ) (data : δ)
  | UpdateFeed (topic : τ) (data : δ)
  deriving DecidableEq, Repr

/-- What `mkdir.go` calls and the sources given do not hold, taken as
parameters: the functions `filepath.Dir` and `filepath.Base` of the Go library,
the constants and functions of package `utils`, the constant `MetaVersion`, the
feed API over its state `σ` (for the directory's user address) with topics `τ`
and payloads `δ`, and `json.Marshal` and `json.Unmarshal` on an `Inode`
(`Unmarshal` into a `*Inode`, which stays nil for the JSON `null`). -/
structure Env (σ τ δ : Type) where
  PathSeperator : String
  MetaVersion : Nat
  Dir : String → String
  Base : String → String
  CombinePathAndFile : String → String → String
  HashString : String → τ
  GetFeedData : σ → τ → FeedData δ
  CreateFeed : σ → τ → δ → Option String × σ
  UpdateFeed : σ → τ → δ → Option String × σ
  Marshal : Inode → Except String δ
  Unmarshal : Option δ → Except String (Option Inode)

/-- The state of a `Directory`: the state `fd` of its feed API, the directory
map, and the record of the calls made on the feed API, oldest first. -/
structure Directory (σ τ δ : Type) where
  fd : σ
  dirMap : String → Option Inode
  calls : List (FeedCall τ δ)

variable {σ τ δ : Type}

/-- Go `len` of a string: its length in bytes. -/
def len (s : String) : Nat := s.utf8ByteSize

/-- Go `strings.HasPrefix`. -/
def HasPrefix (s pre : String) : Bool := pre.data.isPrefixOf s.data

/-- Modelled from the spec: `AddToDirectoryMap` is declared outside the sources
given; it stores the inode in the directory map under the path. -/
def Directory.AddToDirectoryMap (d : Directory σ τ δ) (dirName : String) (dirInode : Inode) :
    Directory σ τ δ :=
  { d with dirMap := fun k => if k = dirName then some dirInode else d.dirMap k }

/-- A call on the feed API: the new state of the feed and the call recorded. -/
def Directory.afterCall (d : Directory σ τ δ) (fd : σ) (c : FeedCall τ δ) : Directory σ τ δ :=
  { d with fd := fd, calls := d.calls ++ [c] }

/-- Function `func (d *Directory) MkDir(dirToCreateWithPath string) error`; `now` is the
value of `time.Now().Unix()`. -/
def MkDir (env : Env σ τ δ) (d : Directory σ τ δ) (now : Int) (dirToCreateWithPath : String) :
    Outcome × Directory σ τ δ :=
  let parentPath := env.Dir dirToCreateWithPath
  let dirName := env.Base dirToCreateWithPath
  if dirName = "" ∨ HasPrefix dirName env.PathSeperator = true then
    (.error .ErrInvalidDirectoryName, d)
  else if len dirName > nameLength then
    (.error .ErrTooLongDirectoryName, d)
  else
    let totalPath := env.CombinePathAndFile parentPath dirName
    let topic := env.HashString totalPath
    let r := env.GetFeedData d.fd topic
    let d := d.afterCall d.fd (.GetFeedData topic)
    if r.err.isNone && r.addr.isSome && r.data.isSome then
      (.error .ErrDirectoryAlreadyPresent, d)
    else
      let meta : MetaData :=
        { Version := env.MetaVersion, Path := parentPath, Name := dirName,
          CreationTime := now, ModificationTime := now, AccessTime := now }
      let dirInode : Inode := { Meta := some meta, FileOrDirNames := [] }
      match env.Marshal dirInode with
      | .error e => (.error (.foreign e), d)
      | .ok data =>
        let c := env.CreateFeed d.fd topic data
        let d := d.afterCall c.2 (.CreateFeed topic data)
        match c.1 with
        | some e => (.error (.foreign e), d)
        | none =>
          let d := d.AddToDirectoryMap totalPath dirInode
          let parentHash := env.HashString parentPath
          let dirName := "_D_" ++ dirName
          let r := env.GetFeedData d.fd parentHash
          let d := d.afterCall d.fd (.GetFeedData parentHash)
          match r.err with
          | some e => (.error (.foreign e), d)
          | none =>
            match env.Unmarshal r.data with
            | .error e => (.error (.foreign e), d)
            | .ok none => (.nilDereference, d)
            | .ok (some parentDirInode) =>
              let parentDirInode : Inode :=
                { parentDirInode with
                  FileOrDirNames := parentDirInode.FileOrDirNames ++ [dirName] }
              match env.Marshal parentDirInode with
              | .error e => (.error (.foreign e), d)
              | .ok parentData =>
                let u := env.UpdateFeed d.fd parentHash parentData
                let d := d.afterCall u.2 (.UpdateFeed parentHash parentData)
                match u.1 with
                | some e => (.error (.foreign e), d)
                | none => (.nil, d.AddToDirectoryMap parentPath parentDirInode)

/-- Function `func (d *Directory) MkRootDir() error`; `now` is the value of
`time.Now().Unix()`. -/
def MkRootDir (env : Env σ τ δ) (d : Directory σ τ δ) (now : Int) : Outcome × Directory σ τ δ :=
  let meta : MetaData :=
    { Version := env.MetaVersion, Path := "", Name := env.PathSeperator,
      CreationTime := now, ModificationTime := now, AccessTime := now }
  let parentDirInode : Inode := { Meta := some meta, FileOrDirNames := [] }
  match env.Marshal parentDirInode with
  | .error e => (.error (.foreign e), d)
  | .ok parentData =>
    let parentHash := env.HashString env.PathSeperator
    let c := env.CreateFeed d.fd parentHash parentData
    let d := d.afterCall c.2 (.CreateFeed parentHash parentData)
    match c.1 with
    | some e => (.error (.foreign e), d)
    | none => (.nil, d.AddToDirectoryMap env.PathSeperator parentDirInode)

/-! ## An instance of the parameters, to run the code -/

/-- The elements of a slash-separated path. -/
def splitOnSlash : List Char → List (List Char)
  | [] => [[]]
  | c :: cs =>
    match splitOnSlash cs with
    | [] => [[]]
    | w :: ws => if c = '/' then [] :: w :: ws else (c :: w) :: ws

/-- One element of a path in Go `filepath.Clean`, on the elements kept so far
(last one first): an empty element and `.` are dropped, `..` removes the element
before it, is kept at the start of a relative path and dropped at the root. -/
def cleanStep (rooted : Bool) (kept : List (List Char)) (e : List Char) : List (List Char) :=
  if e = [] ∨ e = ['.'] then kept
  else if e = ['.', '.'] then
    match kept with
    | top :: rest => if top = ['.', '.'] then e :: kept else rest
    | [] => if rooted then [] else [e]
  else e :: kept

/-- Go `filepath.Clean` on a path with separator `/`. -/
def Clean (path : String) : String :=
  let rooted : Bool := path.data.head? = some '/'
  let elems := ((splitOnSlash path.data).foldl (cleanStep rooted) []).reverse
  let out := (if rooted then "/" else "") ++ "/".intercalate (elems.map String.mk)
  if out = "" then "." else out

/-- Go `filepath.Dir` on a path with separator `/`: `Clean` of the path up to
its last separator. -/
def filepathDir (path : String) : String :=
  Clean (String.mk (path.data.reverse.dropWhile (fun c => c ≠ '/')).reverse)

/-- Go `filepath.Base` on a path with separator `/`: the last element, after
the trailing separators are removed; `.` for the empty path and `/` for a path
of separators only. -/
def filepathBase (path : String) : String :=
  if path = "" then "."
  else
    let stripped := path.data.reverse.dropWhile (fun c => c = '/')
    let last := (stripped.takeWhile (fun c => c ≠ '/')).reverse
    if last = [] then "/" else String.mk last

/-- Modelled from the spec: `utils.CombinePathAndFile` is not among the
sources; the full path of a name in a directory is the two joined by one
separator. -/
def CombinePathAndFile (path fileName : String) : String :=
  if path = "/" then path ++ fileName else path ++ "/" ++ fileName

/-- Modelled from the spec: package `feed` is not among the sources; a feed in
memory that holds the latest payload of each topic.  `Get` returns it or fails
when there is none. -/
def memGetFeedData (fd : String → Option Inode) (topic : String) : FeedData Inode :=
  match fd topic with
  | some data => { addr := some (List.replicate 32 0), data := some data, err := none }
  | none => { addr := none, data := none, err := some "feed does not exist or was not updated yet" }

/-- Modelled from the spec: "`Create` ... fails with `FeedExists` if any update
at `(topic, owner, any_epoch)` is discoverable". -/
def memCreateFeed (fd : String → Option Inode) (topic : String) (data : Inode) :
    Option String × (String → Option Inode) :=
  match fd topic with
  | some _ => (some "FeedExists", fd)
  | none => (none, fun k => if k = topic then some data else fd k)

/-- Modelled from the spec: "`Update` ... places a new update ... Fails with
`FeedNotFound` if no prior update exists." -/
def memUpdateFeed (fd : String → Option Inode) (topic : String) (data : Inode) :
    Option String × (String → Option Inode) :=
  match fd topic with
  | none => (some "FeedNotFound", fd)
  | some _ => (none, fun k => if k = topic then some data else fd k)

/-- The parameters of a run in memory: the Go path functions for the separator
`/`, topics that are the hashed strings themselves, payloads that are the
inodes themselves, and the feed in memory. -/
def memEnv : Env (String → Option Inode) String Inode where
  PathSeperator := "/"
  MetaVersion := 1
  Dir := filepathDir
  Base := filepathBase
  CombinePathAndFile := CombinePathAndFile
  HashString := fun s => s
  GetFeedData := memGetFeedData
  CreateFeed := memCreateFeed
  UpdateFeed := memUpdateFeed
  Marshal := fun i => .ok i
  Unmarshal := fun data =>
    match data with
    | none => .error "unexpected end of JSON input"
    | some i => .ok (some i)

/-- A new directory object: nothing in the feed, an empty directory map, no
call made. -/
def memNew : Directory (String → Option Inode) String Inode :=
  { fd := fun _ => none, dirMap := fun _ => none, calls := [] }

/-- The directory object after `MkRootDir` on a new one, at time 0. -/
def memRoot : Directory (String → Option Inode) String Inode :=
  (MkRootDir memEnv memNew 0).2

/-- The directory object after `MkDir` of `/baseDir` under the root, at time
5. -/
def memBaseDir : Directory (String → Option Inode) String Inode :=
  (MkDir memEnv memRoot 5 "/baseDir").2

/-- A path whose base name is `n` bytes long: `/aa…a`. -/
def pathOfLength (n : Nat) : String := String.mk ('/' :: List.replicate n 'a')

/-- The root directory object with, besides, a feed at the topic of the path
whose base name is 101 bytes long. -/
def memRootWithLong : Directory (String → Option Inode) String Inode :=
  { memRoot with
    fd := (memCreateFeed memRoot.fd (pathOfLength 101) { Meta := none, FileOrDirNames := [] }).2 }

end dir

namespace dir

/-! ## Definitions: `pkg/dir/modify_dir_entry.go` -/

/-- The `error` values `AddEntryToDir` and `RemoveEntryFromDir` can return: the
three errors of package `dir` that `modify_dir_entry.go` names, and the errors
handed on, wrapped or not, from the `feed` and `json` packages. -/
inductive EntryError
  | ErrInvalidDirectoryName
  | ErrInvalidFileOrDirectoryName
  | ErrDirectoryNotPresent
  | foreign (msg : String)
  deriving DecidableEq, Repr

/-- How a call of `AddEntryToDir` or `RemoveEntryFromDir` ends: it returns
`nil`, returns an error, or stops on the dereference of a nil pointer. -/
inductive EntryOutcome
  | nil
  | error (e : EntryError)
  | nilDereference
  deriving DecidableEq, Repr

/-- What `modify_dir_entry.go` calls and the sources given do not hold, taken
as parameters: `utils.HashString`, the feed API with the pod password as its
last argument, `json.Marshal` of an `Inode`, and `json.Unmarshal` into an
`Inode` value (`UnmarshalInode`) and into a `*Inode` that stays nil for the
JSON `null` (`Unmarshal`). -/
structure PwEnv (σ τ δ : Type) where
  HashString : String → τ
  GetFeedData : σ → τ → String → FeedData δ
  UpdateFeed : σ → τ → δ → String → Option String × σ
  Marshal : Inode → Except String δ
  UnmarshalInode : Option δ → Except String Inode
  Unmarshal : Option δ → Except String (Option Inode)

variable {σ τ δ : Type}

/-- Modelled from the spec: `GetDirFromDirectoryMap` is declared outside the
sources given; it gives the inode the directory map holds for the path, nil
when there is none. -/
def Directory.GetDirFromDirectoryMap (d : Directory σ τ δ) (dirName : String) : Option Inode :=
  d.dirMap dirName

/-- The assignment `dirInode.Meta.ModificationTime = now` through the pointer
`Meta`; `none` when the pointer is nil. -/
def Inode.setModificationTime (i : Inode) (now : Int) : Option Inode :=
  match i.Meta with
  | none => none
  | some m => some { i with Meta := some { m with ModificationTime := now } }

/-- Function `func (d *Directory) AddEntryToDir(parentDir, podPassword, itemToAdd string, isFile bool) error`;
`now` is the value of `time.Now().Unix()`. -/
def AddEntryToDir (env : PwEnv σ τ δ) (d : Directory σ τ δ) (now : Int)
    (parentDir podPassword itemToAdd : String) (isFile : Bool) :
    EntryOutcome × Directory σ τ δ :=
  if parentDir = "" then
    (.error .ErrInvalidDirectoryName, d)
  else if itemToAdd = "" then
    (.error .ErrInvalidFileOrDirectoryName, d)
  else if (d.GetDirFromDirectoryMap parentDir).isNone then
    (.error .ErrDirectoryNotPresent, d)
  else
    let topic := env.HashString parentDir
    let r := env.GetFeedData d.fd topic podPassword
    let d := d.afterCall d.fd (.GetFeedData topic)
    match r.err with
    | some e => (.error (.foreign ("modify dir entry: " ++ e)), d)
    | none =>
      match env.UnmarshalInode r.data with
      | .error e => (.error (.foreign ("modify dir entry : " ++ e)), d)
      | .ok dirInode =>
        let itemToAdd := if isFile then "_F_" ++ itemToAdd else "_D_" ++ itemToAdd
        let dirInode : Inode :=
          { dirInode with FileOrDirNames := dirInode.FileOrDirNames ++ [itemToAdd] }
        match dirInode.setModificationTime now with
        | none => (.nilDereference, d)
        | some dirInode =>
          match env.Marshal dirInode with
          | .error e => (.error (.foreign ("modify dir entry : " ++ e)), d)
          | .ok data =>
            let u := env.UpdateFeed d.fd topic data podPassword
            let d := d.afterCall u.2 (.UpdateFeed topic data)
            match u.1 with
            | some e => (.error (.foreign ("modify dir entry : " ++ e)), d)
            | none => (.nil, d.AddToDirectoryMap parentDir dirInode)

/-- The loop of `RemoveEntryFromDir`,
`for _, fileOrDirName := range parentDirInode.FileOrDirNames { if fileOrDirName != itemToDelete { fileNames = append(fileNames, fileOrDirName) } }`,
from `var fileNames []string`. -/
def removeLoop (names : List String) (itemToDelete : String) : List String :=
  names.foldl (fun fileNames fileOrDirName =>
    if fileOrDirName ≠ itemToDelete then fileNames ++ [fileOrDirName] else fileNames) []

/-- Function `func (d *Directory) RemoveEntryFromDir(parentDir, podPassword, itemToDelete string, isFile bool) error`;
`now` is the value of `time.Now().Unix()`. -/
def RemoveEntryFromDir (env : PwEnv σ τ δ) (d : Directory σ τ δ) (now : Int)
    (parentDir podPassword itemToDelete : String) (isFile : Bool) :
    EntryOutcome × Directory σ τ δ :=
  if parentDir = "" then
    (.error .ErrInvalidDirectoryName, d)
  else if itemToDelete = "" then
    (.error .ErrInvalidFileOrDirectoryName, d)
  else
    let parentHash := env.HashString parentDir
    let r := env.GetFeedData d.fd parentHash podPassword
    let d := d.afterCall d.fd (.GetFeedData parentHash)
    match r.err with
    | some e => (.error (.foreign e), d)
    | none =>
      match env.Unmarshal r.data with
      | .error e => (.error (.foreign e), d)
      | .ok none => (.nilDereference, d)
      | .ok (some parentDirInode) =>
        let itemToDelete := if isFile then "_F_" ++ itemToDelete else "_D_" ++ itemToDelete
        let fileNames := removeLoop parentDirInode.FileOrDirNames itemToDelete
        let parentDirInode : Inode := { parentDirInode with FileOrDirNames := fileNames }
        match parentDirInode.setModificationTime now with
        | none => (.nilDereference, d)
        | some parentDirInode =>
          match env.Marshal parentDirInode with
          | .error e => (.error (.foreign e), d)
          | .ok parentData =>
            let u := env.UpdateFeed d.fd parentHash parentData podPassword
            let d := d.afterCall u.2 (.UpdateFeed parentHash parentData)
            match u.1 with
            | some e => (.error (.foreign e), d)
            | none => (.nil, d.AddToDirectoryMap parentDir parentDirInode)

/-- The parameters of `modify_dir_entry.go` for a run in memory, on the feed of
`memEnv`: the pod password is not looked at. -/
def memPwEnv : PwEnv (String → Option Inode) String Inode where
  HashString := fun s => s
  GetFeedData := fun fd topic _ => memGetFeedData fd topic
  UpdateFeed := fun fd topic data _ => memUpdateFeed fd topic data
  Marshal := fun i => .ok i
  UnmarshalInode := fun data =>
    match data with
    | none => .error "unexpected end of JSON input"
    | some i => .ok i
  Unmarshal := fun data =>
    match data with
    | none => .error "unexpected end of JSON input"
    | some i => .ok (some i)

/-- The directory object after `AddEntryToDir` of the file `a.txt` to `/`, on
the object that holds `/baseDir`, at time 7. -/
def memWithFile : Directory (String → Option Inode) String Inode :=
  (AddEntryToDir memPwEnv memBaseDir 7 "/" "pw" "a.txt" true).2

/-- The directory object after, besides, `AddEntryToDir` of a directory named
`a.txt` to `/`, at time 8. -/
def memWithBoth : Directory (String → Option Inode) String Inode :=
  (AddEntryToDir memPwEnv memWithFile 8 "/" "pw" "a.txt" false).2

/-- The directory object after, then, `RemoveEntryFromDir` of the file `a.txt`
from `/`, at time 9. -/
def memRemoved : Directory (String → Option Inode) String Inode :=
  (RemoveEntryFromDir memPwEnv memWithBoth 9 "/" "pw" "a.txt" true).2

end dir

namespace wasm

/-! ## Definitions: `wasm/main.go` -/

/-- A JavaScript value by what the code reads from it: the result of
`String()`, the result of `Bool()` (`none` when the value is not a boolean and
the call panics), and the bytes `js.CopyBytesToGo` copies from it, `byteLength`
of them. -/
structure Value where
  str : String
  bool : Option Bool
  bytes : List Char

/-- How the promise a function returns is settled: `resolve.Invoke(msg)`,
`reject.Invoke(msg)`, or a panic of the goroutine. -/
inductive Settled
  | resolve (msg : String)
  | reject (msg : String)
  | panicked
  deriving DecidableEq, Repr

/-- The error of a read: `io.EOF` or another one. -/
inductive ReadErr
  | EOF
  | other (msg : String)
  deriving DecidableEq, Repr

/-- A call made by `kvLoadCSV` on the API or on the batch: `api.KVBatch` with
its columns, `batch.Put` with its key and value and whether it returned an
error, `batch.Write`. -/
inductive KVCall
  | KVBatch (columns : List String)
  | Put (key value : String) (failed : Bool)
  | Write
  deriving DecidableEq, Repr

/-- What `kvLoadCSV` and `kvNewStore` call and the sources given do not hold,
taken as parameters: the constants `CSVHeaderKey`, `StringIndex` and
`NumberIndex` of package `collection` (an `IndexType` is an integer type, its
zero value 0), `api.KVBatch`, which returns a batch or an error, `Put` and
`Write` on a batch of state `β` (`Write` also on the nil batch), and
`api.KVCreate`. -/
structure KVEnv (β : Type) where
  CSVHeaderKey : String
  StringIndex : Nat
  NumberIndex : Nat
  KVBatch : String → String → String → List String → Except String β
  Put : β → String → String → Bool → Bool → Option String × β
  Write : Option β → String → Option String
  KVCreate : String → String → String → Nat → Option String

/-- The results of the successive calls `reader.ReadString('\n')` on a
`bufio.Reader` over bytes in memory, the first one apart from the later ones:
each is the bytes up to and with the next `\n` and no error, and the last one
the bytes left, without `\n`, and `io.EOF`. -/
def readStrings : List Char → (String × Option ReadErr) × List (String × Option ReadErr)
  | [] => (("", some .EOF), [])
  | c :: cs =>
    let r := readStrings cs
    if c = '\n' then (("\n", none), r.1 :: r.2)
    else ((String.mk (c :: r.1.1.data), r.1.2), r.2)

/-- The results of all the calls of `reader.ReadString('\n')` up to the one that
gives `io.EOF`, in order. -/
def readAll (inBuf : List Char) : List (String × Option ReadErr) :=
  (readStrings inBuf).1 :: (readStrings inBuf).2

/-- Go `strings.TrimSuffix`. -/
def TrimSuffix (s suffix : String) : String :=
  if suffix.data.isSuffixOf s.data then
    String.mk (s.data.take (s.data.length - suffix.data.length))
  else s

/-- The parts of a list of bytes between the occurrences of a separator. -/
def splitOn (sep : Char) : List Char → List Char × List (List Char)
  | [] => ([], [])
  | c :: cs =>
    let r := splitOn sep cs
    if c = sep then ([], r.1 :: r.2) else (c :: r.1, r.2)

/-- Go `strings.Split(s, ",")`. -/
def SplitComma (s : String) : List String :=
  String.mk (splitOn ',' s.data).1 :: (splitOn ',' s.data).2.map String.mk

/-- The variables of the loop of `kvLoadCSV`, and the calls made so far, oldest
first. -/
structure LoopState (β : Type) where
  readHeader : Bool
  rowCount : Nat
  successCount : Nat
  failureCount : Nat
  batch : Option β
  calls : List KVCall

/-- How one pass through the body of the loop ends: with `continue` (or at the
end of the body), with `break`, with `reject.Invoke` and `return`, or with a
panic. -/
inductive Next (β : Type)
  | cont (st : LoopState β)
  | brk (st : LoopState β)
  | ret (msg : String) (st : LoopState β)
  | panicked (st : LoopState β)

variable {β : Type}

/-- One pass through the body of the `for` loop of `kvLoadCSV`, lines 1274 to
1312, for the result `(record, err)` of `reader.ReadString`. -/
def loopBody (env : KVEnv β) (sessionId podName tableName : String) (memory : Bool)
    (st : LoopState β) (record : String) (err : Option ReadErr) : Next β :=
  if err = some .EOF then .brk st
  else
    let st := { st with rowCount := st.rowCount + 1 }
    if err ≠ none then .cont { st with failureCount := st.failureCount + 1 }
    else
      let record := TrimSuffix record "\n"
      let record := TrimSuffix record "\r"
      if !st.readHeader then
        let columns := SplitComma record
        let st := { st with calls := st.calls ++ [KVCall.KVBatch columns] }
        match env.KVBatch sessionId podName tableName columns with
        | .error e => .ret ("kv loadcsv: " ++ e) st
        | .ok batch =>
          let p := env.Put batch env.CSVHeaderKey record false memory
          let st := { st with
            batch := some p.2,
            calls := st.calls ++ [KVCall.Put env.CSVHeaderKey record p.1.isSome] }
          match p.1 with
          | some _ => .cont { st with failureCount := st.failureCount + 1, readHeader := true }
          | none => .cont { st with readHeader := true, successCount := st.successCount + 1 }
      else
        match SplitComma record with
        | [] => .panicked st
        | key :: _ =>
          match st.batch with
          | none => .panicked st
          | some batch =>
            let p := env.Put batch key record false memory
            let st := { st with
              batch := some p.2, calls := st.calls ++ [KVCall.Put key record p.1.isSome] }
            match p.1 with
            | some _ => .cont { st with failureCount := st.failureCount + 1 }
            | none => .cont { st with successCount := st.successCount + 1 }

/-- The `for` loop of `kvLoadCSV` over the results of the reads still to come;
after the last result the reader gives `io.EOF` again. -/
def loop (env : KVEnv β) (sessionId podName tableName : String) (memory : Bool) :
    List (String × Option ReadErr) → LoopState β → Next β
  | [], st => .brk st
  | r :: reads, st =>
    match loopBody env sessionId podName tableName memory st r.1 r.2 with
    | .cont st => loop env sessionId podName tableName memory reads st
    | n => n

/-- The variables of `kvLoadCSV` before the loop, lines 1268 to 1272, and no
call made. -/
def LoopState.init : LoopState β :=
  { readHeader := false, rowCount := 0, successCount := 0, failureCount := 0,
    batch := none, calls := [] }

/-- The message of the final report of `kvLoadCSV`,
`fmt.Sprintf("csv file loaded in to kv table (%s) with total:%d, success: %d, failure: %d rows", ...)`. -/
def reportMessage (tableName : String) (rowCount successCount failureCount : Nat) : String :=
  "csv file loaded in to kv table (" ++ tableName ++ ") with total:" ++ toString rowCount ++
    ", success: " ++ toString successCount ++ ", failure: " ++ toString failureCount ++ " rows"

/-- The goroutine of `kvLoadCSV`, lines 1263 to 1320: how the promise is
settled, and the state of the loop variables at the end. -/
def kvLoadCSVRun (env : KVEnv β) (sessionId podName tableName : String) (memory : Bool)
    (inBuf : List Char) : Settled × LoopState β :=
  match loop env sessionId podName tableName memory (readAll inBuf) LoopState.init with
  | .cont st => (.panicked, st)
  | .panicked st => (.panicked, st)
  | .ret msg st => (.reject msg, st)
  | .brk st =>
    let st := { st with calls := st.calls ++ [KVCall.Write] }
    match env.Write st.batch "" with
    | some e => (.reject ("kv loadcsv: " ++ e), st)
    | none =>
      (.resolve (reportMessage tableName st.rowCount st.successCount st.failureCount), st)

/-- Function `func kvLoadCSV(_ js.Value, funcArgs []js.Value) interface{}`: how the
promise it returns is settled, and the calls made. -/
def kvLoadCSV (env : KVEnv β) (funcArgs : List Value) : Settled × List KVCall :=
  match funcArgs with
  | [a0, a1, a2, a3, a4] =>
    let sessionId := a0.str
    let podName := a1.str
    let tableName := a2.str
    match a3.bool with
    | none => (.panicked, [])
    | some memory =>
      let r := kvLoadCSVRun env sessionId podName tableName memory a4.bytes
      (r.1, r.2.calls)
  | _ =>
    (.reject "not enough arguments. \"kvLoadCSV(sessionId, podName, tableName, memory, file)\"", [])

/-- Function `func kvNewStore(_ js.Value, funcArgs []js.Value) interface{}`: how the
promise it returns is settled, and the calls of `api.KVCreate` made, each with
its arguments. -/
def kvNewStore (env : KVEnv β) (funcArgs : List Value) :
    Settled × List (String × String × String × Nat) :=
  match funcArgs with
  | [a0, a1, a2, a3] =>
    let sessionId := a0.str
    let podName := a1.str
    let tableName := a2.str
    let idxType := a3.str
    let idxType := if idxType = "" then "string" else idxType
    let indexType : Option Nat :=
      if idxType = "string" then some env.StringIndex
      else if idxType = "number" then some env.NumberIndex
      else if idxType = "bytes" then some 0
      else none
    match indexType with
    | none => (.reject "invalid indexType. only string and number are allowed", [])
    | some indexType =>
      match env.KVCreate sessionId podName tableName indexType with
      | some e => (.reject ("kvNewStore failed : " ++ e), [(sessionId, podName, tableName, indexType)])
      | none => (.resolve "kv store created", [(sessionId, podName, tableName, indexType)])
  | _ =>
    (.reject "not enough arguments. \"kvNewStore(sessionId, podName, tableName, indexType)\"", [])

/-! ### Words of the claims on `kvLoadCSV` -/

/-- The payload made of the given lines, each terminated by `\n`. -/
def payloadOf : List String → List Char
  | [] => []
  | l :: ls => l.data ++ '\n' :: payloadOf ls

/-- A line stripped of one trailing `\r`: the row as it is stored. -/
def rowOf (l : String) : String := TrimSuffix l "\r"

/-- The part of a row before its first comma, the whole row when it has no
comma. -/
def keyOf (row : String) : String := String.mk (row.data.takeWhile (fun c => c ≠ ','))

/-- A call without the result of a `batch.Put`: what was called, with which
arguments. -/
def KVCall.withoutResult : KVCall → KVCall
  | .Put key value _ => .Put key value false
  | c => c

/-- The number of calls of `batch.Put` that returned an error. -/
def failedPuts : List KVCall → Nat
  | [] => 0
  | .Put _ _ true :: cs => failedPuts cs + 1
  | _ :: cs => failedPuts cs

/-- The number of calls of `batch.Put` that returned no error. -/
def okPuts : List KVCall → Nat
  | [] => 0
  | .Put _ _ false :: cs => okPuts cs + 1
  | _ :: cs => okPuts cs

/-- The keys and values of the puts a payload of lines asks for, in order: the
stripped header line under `CSVHeaderKey`, then each later stripped line under
its part before the first comma. -/
def putsOf (env : KVEnv β) (l0 : String) (rows : List String) : List (String × String) :=
  (env.CSVHeaderKey, rowOf l0) :: rows.map (fun l => (keyOf (rowOf l), rowOf l))

/-- The batch after `batch.Put` of the given keys and values in order, each one
made on the batch as the one before left it. -/
def batchAfter (env : KVEnv β) (memory : Bool) : β → List (String × String) → β
  | b, [] => b
  | b, kv :: kvs => batchAfter env memory (env.Put b kv.1 kv.2 false memory).2 kvs

/-- The calls `batch.Put` of the given keys and values in order, each one made
on the batch as the one before left it, with whether it returned an error. -/
def putCalls (env : KVEnv β) (memory : Bool) : β → List (String × String) → List KVCall
  | _, [] => []
  | b, kv :: kvs =>
    KVCall.Put kv.1 kv.2 (env.Put b kv.1 kv.2 false memory).1.isSome ::
      putCalls env memory (env.Put b kv.1 kv.2 false memory).2 kvs

/-- Whether `batch.Put` returns no error for each of the given keys and values
in order, each one made on the batch as the one before left it. -/
def putsSucceed (env : KVEnv β) (memory : Bool) : β → List (String × String) → Bool
  | _, [] => true
  | b, kv :: kvs =>
    (env.Put b kv.1 kv.2 false memory).1.isNone &&
      putsSucceed env memory (env.Put b kv.1 kv.2 false memory).2 kvs

/-- The three totals agree with the calls made: each row read is counted once
as a success or as a failure, the failures are the calls of `batch.Put` that
returned an error and the successes those that returned none. -/
def Counted {β : Type} (st : LoopState β) : Prop :=
  st.rowCount = st.successCount + st.failureCount ∧
  st.failureCount = failedPuts st.calls ∧
  st.successCount = okPuts st.calls

/-! ### An instance of the parameters, to run the code -/

/-- Parameters for a run in memory: the reserved key of the spec,
`__CSV_HEADER__`, a batch that is the list of the pairs put, and calls that all
succeed. -/
def memKV : KVEnv (List (String × String)) where
  CSVHeaderKey := "__CSV_HEADER__"
  StringIndex := 2
  NumberIndex := 3
  KVBatch := fun _ _ _ _ => .ok []
  Put := fun b k v _ _ => (none, b ++ [(k, v)])
  Write := fun _ _ => none
  KVCreate := fun _ _ _ _ => none

/-- Parameters as `memKV`, except that `Put` fails on the key `bob`. -/
def memKVFailBob : KVEnv (List (String × String)) where
  CSVHeaderKey := "__CSV_HEADER__"
  StringIndex := 2
  NumberIndex := 3
  KVBatch := fun _ _ _ _ => .ok []
  Put := fun b k v _ _ => if k = "bob" then (some "put failed", b) else (none, b ++ [(k, v)])
  Write := fun _ _ => none
  KVCreate := fun _ _ _ _ => none

/-- Parameters as `memKV`, except that `Write` fails. -/
def memKVWriteFails : KVEnv (List (String × String)) where
  CSVHeaderKey := "__CSV_HEADER__"
  StringIndex := 2
  NumberIndex := 3
  KVBatch := fun _ _ _ _ => .ok []
  Put := fun b k v _ _ => (none, b ++ [(k, v)])
  Write := fun _ _ => some "write failed"
  KVCreate := fun _ _ _ _ => none

/-- Parameters as `memKVFailBob`, except that `Write` succeeds only on the
batch that holds the header `name,age` and the row of `alice`, in this order. -/
def memKVStrict : KVEnv (List (String × String)) where
  CSVHeaderKey := "__CSV_HEADER__"
  StringIndex := 2
  NumberIndex := 3
  KVBatch := fun _ _ _ _ => .ok []
  Put := fun b k v _ _ => if k = "bob" then (some "put failed", b) else (none, b ++ [(k, v)])
  Write := fun b _ =>
    if b = some [("__CSV_HEADER__", "name,age"), ("alice", "alice,30")] then none
    else some "unexpected batch"
  KVCreate := fun _ _ _ _ => none

/-- A JavaScript string. -/
def jsString (s : String) : Value := { str := s, bool := none, bytes := [] }

/-- A JavaScript boolean. -/
def jsBool (b : Bool) : Value := { str := toString b, bool := some b, bytes := [] }

/-- A JavaScript array of bytes. -/
def jsBytes (s : String) : Value := { str := "<object>", bool := none, bytes := s.data }

/-- The arguments of `kvLoadCSV` for a payload, on the table `t`. -/
def csvArgs (payload : String) : List Value :=
  [jsString "session", jsString "pod", jsString "t", jsBool false, jsBytes payload]

end wasm

namespace dfs

/-! ## Definitions: `pkg/dfs/doc_api.go` -/

/-- The `error` values the document controllers return: the errors of package
`dfs` that `doc_api.go` names, and the errors handed on from the pod map and
the document store. -/
inductive APIError
  | ErrUserNotLoggedIn
  | ErrPodNotOpen
  | ErrFileNotPresent
  | foreign (msg : String)
  deriving DecidableEq, Repr

/-- A call made on the document store of a pod, with its arguments. -/
inductive DocCall
  | CreateDocumentDB (name password : String) (indexes : List (String × Nat)) (mutable : Bool)
  | OpenDocumentDB (name password : String)
  | DeleteDocumentDB (name password : String)
  | LoadDocumentDBSchemas (password : String)
  | Count (name expr : String)
  | Put (name : String) (value : List Nat)
  | Get (name id password : String)
  | Del (name id : String)
  | Find (name expr password : String) (limit : Int)
  | CreateDocBatch (name password : String)
  | DocBatchPut (doc : List Nat) (index : Nat)
  | DocBatchWrite (podFile : String)
  | DocFileIndex (name podFileWithPath password : String)
  deriving DecidableEq, Repr

/-- What `doc_api.go` calls and the sources given do not hold, taken as
parameters.  The first five read the API: the user logged in under a session
(`a.users.GetLoggedInUserInfo`, nil when there is none), `ui.IsPodOpen`,
`ui.GetPod().GetPodInfoFromPodMap`, `podInfo.GetPodPassword` and
`podInfo.GetFile().IsFileAlreadyPresent`.  The others are the methods of the
document store `podInfo.GetDocStore()`, on its state `ς`: each gives its
results and the new state.  `υ` is a `*user.Info`, `π` a `*pod.Info`, `κ` a
`map[string]collection.DBSchema`, `β` a `collection.DocBatch`; a slice of
bytes is a list of numbers, nil slices and nil pointers are `none`. -/
structure DocEnv (υ π ς κ β : Type) where
  GetLoggedInUserInfo : String → Option υ
  IsPodOpen : υ → String → Bool
  GetPodInfoFromPodMap : υ → String → Except String π
  GetPodPassword : π → String
  IsFileAlreadyPresent : π → String → Bool
  CreateDocumentDB : ς → π → String → String → List (String × Nat) → Bool → Option String × ς
  OpenDocumentDB : ς → π → String → String → Option String × ς
  DeleteDocumentDB : ς → π → String → String → Option String × ς
  LoadDocumentDBSchemas : ς → π → String → (Option κ × Option String) × ς
  Count : ς → π → String → String → (Nat × Option String) × ς
  Put : ς → π → String → List Nat → Option String × ς
  Get : ς → π → String → String → String → (Option (List Nat) × Option String) × ς
  Del : ς → π → String → String → Option String × ς
  Find : ς → π → String → String → String → Int →
    (Option (List (List Nat)) × Option String) × ς
  CreateDocBatch : ς → π → String → String → (Option β × Option String) × ς
  DocBatchPut : ς → π → Option β → List Nat → Nat → Option String × ς
  DocBatchWrite : ς → π → Option β → String → Option String × ς
  DocFileIndex : ς → π → String → String → String → Option String × ς

/-- What a controller gives: the value it returns besides the error (`()` when
there is none), the error or nil, the state of the document store after the
call, and the calls made on the document store. -/
structure Result (α ς : Type) where
  value : α
  err : Option APIError
  store : ς
  calls : List DocCall

variable {υ π ς κ β : Type}

/-- Function `func (a *API) DocCreate(sessionId, podName, name string, indexes map[string]collection.IndexType, mutable bool) error`. -/
def DocCreate (env : DocEnv υ π ς κ β) (s : ς) (sessionId podName name : String)
    (indexes : List (String × Nat)) (mutable : Bool) : Result Unit ς :=
  match env.GetLoggedInUserInfo sessionId with
  | none => ⟨(), some .ErrUserNotLoggedIn, s, []⟩
  | some ui =>
    if !env.IsPodOpen ui podName then ⟨(), some .ErrPodNotOpen, s, []⟩
    else
      match env.GetPodInfoFromPodMap ui podName with
      | .error e => ⟨(), some (.foreign e), s, []⟩
      | .ok podInfo =>
        let r := env.CreateDocumentDB s podInfo name (env.GetPodPassword podInfo) indexes mutable
        ⟨(), r.1.map .foreign, r.2,
          [.CreateDocumentDB name (env.GetPodPassword podInfo) indexes mutable]⟩

/-- Function `func (a *API) DocOpen(sessionId, podName, name string) error`. -/
def DocOpen (env : DocEnv υ π ς κ β) (s : ς) (sessionId podName name : String) : Result Unit ς :=
  match env.GetLoggedInUserInfo sessionId with
  | none => ⟨(), some .ErrUserNotLoggedIn, s, []⟩
  | some ui =>
    if !env.IsPodOpen ui podName then ⟨(), some .ErrPodNotOpen, s, []⟩
    else
      match env.GetPodInfoFromPodMap ui podName with
      | .error e => ⟨(), some (.foreign e), s, []⟩
      | .ok podInfo =>
        let r := env.OpenDocumentDB s podInfo name (env.GetPodPassword podInfo)
        ⟨(), r.1.map .foreign, r.2, [.OpenDocumentDB name (env.GetPodPassword podInfo)]⟩

/-- Function `func (a *API) DocDelete(sessionId, podName, name string) error`. -/
def DocDelete (env : DocEnv υ π ς κ β) (s : ς) (sessionId podName name : String) :
    Result Unit ς :=
  match env.GetLoggedInUserInfo sessionId with
  | none => ⟨(), some .ErrUserNotLoggedIn, s, []⟩
  | some ui =>
    if !env.IsPodOpen ui podName then ⟨(), some .ErrPodNotOpen, s, []⟩
    else
      match env.GetPodInfoFromPodMap ui podName with
      | .error e => ⟨(), some (.foreign e), s, []⟩
      | .ok podInfo =>
        let r := env.DeleteDocumentDB s podInfo name (env.GetPodPassword podInfo)
        ⟨(), r.1.map .foreign, r.2, [.DeleteDocumentDB name (env.GetPodPassword podInfo)]⟩

/-- Function `func (a *API) DocList(sessionId, podName string) (map[string]collection.DBSchema, error)`. -/
def DocList (env : DocEnv υ π ς κ β) (s : ς) (sessionId podName : String) :
    Result (Option κ) ς :=
  match env.GetLoggedInUserInfo sessionId with
  | none => ⟨none, some .ErrUserNotLoggedIn, s, []⟩
  | some ui =>
    if !env.IsPodOpen ui podName then ⟨none, some .ErrPodNotOpen, s, []⟩
    else
      match env.GetPodInfoFromPodMap ui podName with
      | .error e => ⟨none, some (.foreign e), s, []⟩
      | .ok podInfo =>
        let r := env.LoadDocumentDBSchemas s podInfo (env.GetPodPassword podInfo)
        ⟨r.1.1, r.1.2.map .foreign, r.2, [.LoadDocumentDBSchemas (env.GetPodPassword podInfo)]⟩

/-- Function `func (a *API) DocCount(sessionId, podName, name, expr string) (*collection.TableKeyCount, error)`;
the value is the `TableName` and the `Count` of the `TableKeyCount` returned. -/
def DocCount (env : DocEnv υ π ς κ β) (s : ς) (sessionId podName name expr : String) :
    Result (String × Nat) ς :=
  let keyCount : String × Nat := (name, 0)
  match env.GetLoggedInUserInfo sessionId with
  | none => ⟨keyCount, some .ErrUserNotLoggedIn, s, []⟩
  | some ui =>
    if !env.IsPodOpen ui podName then ⟨keyCount, some .ErrPodNotOpen, s, []⟩
    else
      match env.GetPodInfoFromPodMap ui podName with
      | .error e => ⟨keyCount, some (.foreign e), s, []⟩
      | .ok podInfo =>
        let r := env.Count s podInfo name expr
        match r.1.2 with
        | some e => ⟨keyCount, some (.foreign e), r.2, [.Count name expr]⟩
        | none => ⟨(keyCount.1, r.1.1), none, r.2, [.Count name expr]⟩

/-- Function `func (a *API) DocPut(sessionId, podName, name string, value []byte) error`. -/
def DocPut (env : DocEnv υ π ς κ β) (s : ς) (sessionId podName name : String)
    (value : List Nat) : Result Unit ς :=
  match env.GetLoggedInUserInfo sessionId with
  | none => ⟨(), some .ErrUserNotLoggedIn, s, []⟩
  | some ui =>
    if !env.IsPodOpen ui podName then ⟨(), some .ErrPodNotOpen, s, []⟩
    else
      match env.GetPodInfoFromPodMap ui podName with
      | .error e => ⟨(), some (.foreign e), s, []⟩
      | .ok podInfo =>
        let r := env.Put s podInfo name value
        ⟨(), r.1.map .foreign, r.2, [.Put name value]⟩

/-- Function `func (a *API) DocGet(sessionId, podName, name, id string) ([]byte, error)`. -/
def DocGet (env : DocEnv υ π ς κ β) (s : ς) (sessionId podName name id : String) :
    Result (Option (List Nat)) ς :=
  match env.GetLoggedInUserInfo sessionId with
  | none => ⟨none, some .ErrUserNotLoggedIn, s, []⟩
  | some ui =>
    if !env.IsPodOpen ui podName then ⟨none, some .ErrPodNotOpen, s, []⟩
    else
      match env.GetPodInfoFromPodMap ui podName with
      | .error e => ⟨none, some (.foreign e), s, []⟩
      | .ok podInfo =>
        let r := env.Get s podInfo name id (env.GetPodPassword podInfo)
        ⟨r.1.1, r.1.2.map .foreign, r.2, [.Get name id (env.GetPodPassword podInfo)]⟩

/-- Function `func (a *API) DocDel(sessionId, podName, name, id string) error`. -/
def DocDel (env : DocEnv υ π ς κ β) (s : ς) (sessionId podName name id : String) :
    Result Unit ς :=
  match env.GetLoggedInUserInfo sessionId with
  | none => ⟨(), some .ErrUserNotLoggedIn, s, []⟩
  | some ui =>
    if !env.IsPodOpen ui podName then ⟨(), some .ErrPodNotOpen, s, []⟩
    else
      match env.GetPodInfoFromPodMap ui podName with
      | .error e => ⟨(), some (.foreign e), s, []⟩
      | .ok podInfo =>
        let r := env.Del s podInfo name id
        ⟨(), r.1.map .foreign, r.2, [.Del name id]⟩

/-- Function `func (a *API) DocFind(sessionId, podName, name, expr string, limit int) ([][]byte, error)`. -/
def DocFind (env : DocEnv υ π ς κ β) (s : ς) (sessionId podName name expr : String)
    (limit : Int) : Result (Option (List (List Nat))) ς :=
  match env.GetLoggedInUserInfo sessionId with
  | none => ⟨none, some .ErrUserNotLoggedIn, s, []⟩
  | some ui =>
    if !env.IsPodOpen ui podName then ⟨none, some .ErrPodNotOpen, s, []⟩
    else
      match env.GetPodInfoFromPodMap ui podName with
      | .error e => ⟨none, some (.foreign e), s, []⟩
      | .ok podInfo =>
        let r := env.Find s podInfo name expr (env.GetPodPassword podInfo) limit
        ⟨r.1.1, r.1.2.map .foreign, r.2, [.Find name expr (env.GetPodPassword podInfo) limit]⟩

/-- Function `func (a *API) DocBatch(sessionId, podName, name string) (*collection.DocBatch, error)`. -/
def DocBatch (env : DocEnv υ π ς κ β) (s : ς) (sessionId podName name : String) :
    Result (Option β) ς :=
  match env.GetLoggedInUserInfo sessionId with
  | none => ⟨none, some .ErrUserNotLoggedIn, s, []⟩
  | some ui =>
    if !env.IsPodOpen ui podName then ⟨none, some .ErrPodNotOpen, s, []⟩
    else
      match env.GetPodInfoFromPodMap ui podName with
      | .error e => ⟨none, some (.foreign e), s, []⟩
      | .ok podInfo =>
        let r := env.CreateDocBatch s podInfo name (env.GetPodPassword podInfo)
        ⟨r.1.1, r.1.2.map .foreign, r.2, [.CreateDocBatch name (env.GetPodPassword podInfo)]⟩

/-- Function `func (a *API) DocBatchPut(sessionId, podName string, doc []byte, docBatch *collection.DocBatch) error`. -/
def DocBatchPut (env : DocEnv υ π ς κ β) (s : ς) (sessionId podName : String) (doc : List Nat)
    (docBatch : Option β) : Result Unit ς :=
  match env.GetLoggedInUserInfo sessionId with
  | none => ⟨(), some .ErrUserNotLoggedIn, s, []⟩
  | some ui =>
    if !env.IsPodOpen ui podName then ⟨(), some .ErrPodNotOpen, s, []⟩
    else
      match env.GetPodInfoFromPodMap ui podName with
      | .error e => ⟨(), some (.foreign e), s, []⟩
      | .ok podInfo =>
        let r := env.DocBatchPut s podInfo docBatch doc 0
        ⟨(), r.1.map .foreign, r.2, [.DocBatchPut doc 0]⟩

/-- Function `func (a *API) DocBatchWrite(sessionId, podName string, docBatch *collection.DocBatch) error`. -/
def DocBatchWrite (env : DocEnv υ π ς κ β) (s : ς) (sessionId podName : String)
    (docBatch : Option β) : Result Unit ς :=
  match env.GetLoggedInUserInfo sessionId with
  | none => ⟨(), some .ErrUserNotLoggedIn, s, []⟩
  | some ui =>
    if !env.IsPodOpen ui podName then ⟨(), some .ErrPodNotOpen, s, []⟩
    else
      match env.GetPodInfoFromPodMap ui podName with
      | .error e => ⟨(), some (.foreign e), s, []⟩
      | .ok podInfo =>
        let r := env.DocBatchWrite s podInfo docBatch ""
        ⟨(), r.1.map .foreign, r.2, [.DocBatchWrite ""]⟩

/-- Function `func (a *API) DocIndexJson(sessionId, podName, name, podFileWithPath string) error`. -/
def DocIndexJson (env : DocEnv υ π ς κ β) (s : ς) (sessionId podName name podFileWithPath : String) :
    Result Unit ς :=
  match env.GetLoggedInUserInfo sessionId with
  | none => ⟨(), some .ErrUserNotLoggedIn, s, []⟩
  | some ui =>
    if !env.IsPodOpen ui podName then ⟨(), some .ErrPodNotOpen, s, []⟩
    else
      match env.GetPodInfoFromPodMap ui podName with
      | .error e => ⟨(), some (.foreign e), s, []⟩
      | .ok podInfo =>
        if !env.IsFileAlreadyPresent podInfo podFileWithPath then
          ⟨(), some .ErrFileNotPresent, s, []⟩
        else
          let r := env.DocFileIndex s podInfo name podFileWithPath (env.GetPodPassword podInfo)
          ⟨(), r.1.map .foreign, r.2,
            [.DocFileIndex name podFileWithPath (env.GetPodPassword podInfo)]⟩

/-- The checks of a controller come first: with no user logged in under the
session the result is `ErrUserNotLoggedIn`, whatever the state of the pod;
with a user logged in and the pod not open it is `ErrPodNotOpen`; in both
cases the value is the empty one, the document store is left as it was and no
call is made on it. -/
def ChecksFirst {α : Type} (env : DocEnv υ π ς κ β) (s : ς) (sessionId podName : String)
    (empty : α) (r : Result α ς) : Prop :=
  (env.GetLoggedInUserInfo sessionId = none →
    r = ⟨empty, some .ErrUserNotLoggedIn, s, []⟩) ∧
  (∀ ui, env.GetLoggedInUserInfo sessionId = some ui → env.IsPodOpen ui podName = false →
    r = ⟨empty, some .ErrPodNotOpen, s, []⟩)

/-- Parameters for a run in memory: the one session `s1` is that of a logged-in
user, whose one open pod is `pod1`; the document store counts the calls made on
it, which all succeed with empty results. -/
def memDfs : DocEnv Unit Unit Nat Unit Unit where
  GetLoggedInUserInfo := fun sessionId => if sessionId = "s1" then some () else none
  IsPodOpen := fun _ podName => podName = "pod1"
  GetPodInfoFromPodMap := fun _ _ => .ok ()
  GetPodPassword := fun _ => "pw"
  IsFileAlreadyPresent := fun _ _ => true
  CreateDocumentDB := fun s _ _ _ _ _ => (none, s + 1)
  OpenDocumentDB := fun s _ _ _ => (none, s + 1)
  DeleteDocumentDB := fun s _ _ _ => (none, s + 1)
  LoadDocumentDBSchemas := fun s _ _ => ((some (), none), s + 1)
  Count := fun s _ _ _ => ((0, none), s + 1)
  Put := fun s _ _ _ => (none, s + 1)
  Get := fun s _ _ _ _ => ((some [], none), s + 1)
  Del := fun s _ _ _ => (none, s + 1)
  Find := fun s _ _ _ _ _ => ((some [], none), s + 1)
  CreateDocBatch := fun s _ _ _ => ((some (), none), s + 1)
  DocBatchPut := fun s _ _ _ _ => (none, s + 1)
  DocBatchWrite := fun s _ _ _ => (none, s + 1)
  DocFileIndex := fun s _ _ _ _ => (none, s + 1)

end dfs

namespace api

/-! ## Definitions: `pkg/api/pod_open.go` -/

/-- The errors of `h.dfsAPI.OpenPod` as `PodOpenHandler` tells them apart:
`dfs.ErrUserNotLoggedIn`, `pod.ErrInvalidPodName`, and any other error. -/
inductive OpenPodError
  | ErrUserNotLoggedIn
  | ErrInvalidPodName
  | other (msg : String)
  deriving DecidableEq, Repr

/-- A request by what `PodOpenHandler` reads from it: the header
`Content-Type`, the result of decoding the body into a `PodNameRequest` (an
error, or the field `PodName`), and the result of
`cookie.GetSessionIdFromCookie` (an error, or the session id). -/
structure Request where
  contentType : String
  podReq : Except String String
  cookie : Except String String

/-- The response written: the status of the `jsonhttp` function called and the
message of the `response` given to it. -/
structure Response where
  status : Nat
  message : String
  deriving DecidableEq, Repr

/-- What `PodOpenHandler` uses and the sources given do not hold, taken as
parameters: the constant `jsonContentType`, the text of `ErrInvalidCookie`,
`h.dfsAPI.OpenPod` by the error it returns (nil on success), and the text
`err.Error()` of such an error. -/
structure PodEnv where
  jsonContentType : String
  ErrInvalidCookie : String
  OpenPod : String → String → Option OpenPodError
  errorText : OpenPodError → String

/-- Library `resenje.org/jsonhttp`: `OK` writes the status 200. -/
def OK (message : String) : Response := ⟨200, message⟩

/-- Library `resenje.org/jsonhttp`: `BadRequest` writes the status 400. -/
def BadRequest (message : String) : Response := ⟨400, message⟩

/-- Library `resenje.org/jsonhttp`: `NotFound` writes the status 404. -/
def NotFound (message : String) : Response := ⟨404, message⟩

/-- Library `resenje.org/jsonhttp`: `InternalServerError` writes the status
500. -/
def InternalServerError (message : String) : Response := ⟨500, message⟩

/-- Function `func (h *Handler) PodOpenHandler(w http.ResponseWriter, r *http.Request)`:
the response it writes. -/
def PodOpenHandler (env : PodEnv) (r : Request) : Response :=
  if r.contentType ≠ env.jsonContentType then
    BadRequest "pod open: invalid request body type"
  else
    match r.podReq with
    | .error _ => BadRequest "pod open: could not decode arguments"
    | .ok pod =>
      if pod = "" then BadRequest "pod open: \"podName\" argument missing"
      else
        match r.cookie with
        | .error _ => BadRequest env.ErrInvalidCookie
        | .ok sessionId =>
          if sessionId = "" then
            BadRequest "pod open: \"cookie-id\" parameter missing in cookie"
          else
            match env.OpenPod pod sessionId with
            | some err =>
              if err = .ErrUserNotLoggedIn ∨ err = .ErrInvalidPodName then
                NotFound ("pod open: " ++ env.errorText err)
              else
                InternalServerError ("pod open: " ++ env.errorText err)
            | none => OK "pod opened successfully"

/-- Parameters for a run: the session `s1` is that of a logged-in user, who
can open the pod `pod1`. -/
def memApi : PodEnv where
  jsonContentType := "application/json"
  ErrInvalidCookie := "invalid cookie"
  OpenPod := fun pod sessionId =>
    if sessionId ≠ "s1" then some .ErrUserNotLoggedIn
    else if pod ≠ "pod1" then some .ErrInvalidPodName
    else none
  errorText := fun e =>
    match e with
    | .ErrUserNotLoggedIn => "user not logged in"
    | .ErrInvalidPodName => "invalid pod name"
    | .other msg => msg

end api

namespace wasm

/-! ## Definitions: `docNewStore` and `fileReceiveInfo` of `wasm/main.go` -/

/-- What `docNewStore` calls and the sources given do not hold, taken as
parameters: the constants `StringIndex`, `NumberIndex`, `MapIndex` and
`ListIndex` of package `collection`, and `api.DocCreate` by the error it
returns (nil on success). -/
structure DocStoreEnv where
  StringIndex : Nat
  NumberIndex : Nat
  MapIndex : Nat
  ListIndex : Nat
  DocCreate : String → String → String → List (String × Nat) → Bool → Option String

/-- A call of `api.DocCreate`, by its arguments. -/
structure DocCreateCall where
  sessionId : String
  podName : String
  name : String
  indexes : List (String × Nat)
  mutable : Bool
  deriving DecidableEq, Repr

/-- The assignment `indexes[key] = value` on a Go map, the map being the list of
its keys with their values, each key once. -/
def mapSet : List (String × Nat) → String → Nat → List (String × Nat)
  | [], key, value => [(key, value)]
  | (k, v) :: rest, key, value =>
    if k = key then (key, value) :: rest else (k, v) :: mapSet rest key value

/-- Go `strings.Split(s, sep)` for a separator of one byte. -/
def Split (s : String) (sep : Char) : List String :=
  String.mk (splitOn sep s.data).1 :: (splitOn sep s.data).2.map String.mk

/-- The loop `for _, idx := range idxs` of `docNewStore`, lines 1414 to 1434, on
the items still to come and the map `indexes`: the map at the end, or the
message of the `reject.Invoke` that ends the call. -/
def indexLoop (env : DocStoreEnv) :
    List String → List (String × Nat) → Except String (List (String × Nat))
  | [], indexes => .ok indexes
  | idx :: idxs, indexes =>
    match Split idx '=' with
    | [nt0, nt1] =>
      if nt1 = "string" then indexLoop env idxs (mapSet indexes nt0 env.StringIndex)
      else if nt1 = "number" then indexLoop env idxs (mapSet indexes nt0 env.NumberIndex)
      else if nt1 = "map" then indexLoop env idxs (mapSet indexes nt0 env.MapIndex)
      else if nt1 = "list" then indexLoop env idxs (mapSet indexes nt0 env.ListIndex)
      else if nt1 = "bytes" then indexLoop env idxs indexes
      else .error "invalid indexType"
    | _ => .error "invalid argument"

/-- Function `func docNewStore(_ js.Value, funcArgs []js.Value) interface{}`: how the
promise it returns is settled, and the calls of `api.DocCreate` made, each with
its arguments. -/
def docNewStore (env : DocStoreEnv) (funcArgs : List Value) :
    Settled × List DocCreateCall :=
  match funcArgs with
  | [a0, a1, a2, a3, a4] =>
    let sessionId := a0.str
    let podName := a1.str
    let tableName := a2.str
    let si := a3.str
    match a4.bool with
    | none => (.panicked, [])
    | some mutable =>
      let indexes : Except String (List (String × Nat)) :=
        if si ≠ "" then indexLoop env (Split si ',') [] else .ok []
      match indexes with
      | .error msg => (.reject msg, [])
      | .ok indexes =>
        match env.DocCreate sessionId podName tableName indexes mutable with
        | some e =>
          (.reject ("docNewStore failed : " ++ e),
            [⟨sessionId, podName, tableName, indexes, mutable⟩])
        | none =>
          (.resolve "doc store created", [⟨sessionId, podName, tableName, indexes, mutable⟩])
  | _ =>
    (.reject
      "not enough arguments. \"docNewStore(sessionId, podName, tableName, simpleIndexes, mutable)\"",
      [])

/-- What `fileReceiveInfo` calls and the sources given do not hold, taken as
parameters: `utils.ParseSharingReference`, which gives a reference `ρ` or an
error, and `api.ReceiveInfo`, which gives the information, here as the text of
its JSON, or an error. -/
structure ReceiveEnv (ρ : Type) where
  ParseSharingReference : String → Except String ρ
  ReceiveInfo : String → ρ → Except String String

/-- Function `func fileReceiveInfo(_ js.Value, funcArgs []js.Value) interface{}`: how
the promise it returns is settled, and the indices at which `funcArgs` was read,
in order.  An index outside the slice is a panic, index out of range. -/
def fileReceiveInfo {ρ : Type} (env : ReceiveEnv ρ) (funcArgs : List Value) :
    Settled × List Nat :=
  if funcArgs.length ≠ 2 then
    (.reject "not enough arguments. \"fileReceiveInfo(sessionId, fileSharingReference)\"", [])
  else
    match funcArgs[0]? with
    | none => (.panicked, [0])
    | some a0 =>
      let sessionId := a0.str
      match funcArgs[2]? with
      | none => (.panicked, [0, 2])
      | some a2 =>
        let fileSharingReference := a2.str
        match env.ParseSharingReference fileSharingReference with
        | .error e => (.reject ("fileReceiveInfo failed : " ++ e), [0, 2])
        | .ok ref =>
          match env.ReceiveInfo sessionId ref with
          | .error e => (.reject ("fileReceiveInfo failed : " ++ e), [0, 2])
          | .ok resp => (.resolve resp, [0, 2])

/-- Function `func podReceiveInfo(_ js.Value, funcArgs []js.Value) interface{}`, the
function next to `fileReceiveInfo` with the same two arguments, over
`utils.ParseHexReference` and `api.PodReceiveInfo` as the two parameters: how
the promise is settled, and the indices at which `funcArgs` was read. -/
def podReceiveInfo {ρ : Type} (env : ReceiveEnv ρ) (funcArgs : List Value) :
    Settled × List Nat :=
  if funcArgs.length ≠ 2 then
    (.reject "not enough arguments. \"podReceiveInfo(sessionId, pod_sharing_reference)\"", [])
  else
    match funcArgs[0]? with
    | none => (.panicked, [0])
    | some a0 =>
      let sessionId := a0.str
      match funcArgs[1]? with
      | none => (.panicked, [0, 1])
      | some a1 =>
        let podSharingReference := a1.str
        match env.ParseSharingReference podSharingReference with
        | .error e => (.reject ("podReceiveInfo failed : " ++ e), [0, 1])
        | .ok ref =>
          match env.ReceiveInfo sessionId ref with
          | .error e => (.reject ("podReceiveInfo failed : " ++ e), [0, 1])
          | .ok resp => (.resolve resp, [0, 1])

/-- Parameters for a run: the index kinds numbered as they are declared, and an
`api.DocCreate` that succeeds. -/
def memDocStore : DocStoreEnv where
  StringIndex := 2
  NumberIndex := 3
  MapIndex := 4
  ListIndex := 5
  DocCreate := fun _ _ _ _ _ => none

/-- Parameters for a run: every reference parses to itself, and the
information of a reference is a fixed text. -/
def memReceive : ReceiveEnv String where
  ParseSharingReference := fun s => .ok s
  ReceiveInfo := fun _ _ => .ok "info"

end wasm

namespace user

/-! ## Definitions: `pkg/user/users.go` -/

/-- Modelled from the spec: the type `Info` is declared outside the sources
given; `users.go` reads its fields `name` and `sessionId`. -/
structure Info where
  name : String
  sessionId : String
  deriving DecidableEq, Repr

/-- The type `Users`, by its field `userMap map[string]*Info`: the list of the
keys of the map with their values, each key once, in the order in which a
`range` over the map visits them.  The values are the non-nil pointers that
`addUserToMap` stores; the mutex `userMu` has no part in a run of one call at a
time. -/
structure Users where
  userMap : List (String × Info)
  deriving DecidableEq, Repr

/-- The assignment `userMap[key] = info`. -/
def userMapSet : List (String × Info) → String → Info → List (String × Info)
  | [], key, info => [(key, info)]
  | (k, v) :: rest, key, info =>
    if k = key then (key, info) :: rest else (k, v) :: userMapSet rest key info

/-- Function `func (u *Users) addUserToMap(info *Info)`:
`u.userMap[info.sessionId] = info`. -/
def Users.addUserToMap (u : Users) (info : Info) : Users :=
  { userMap := userMapSet u.userMap info.sessionId info }

/-- The loop of `isUserNameInMap`,
`for _, ui := range u.userMap { if ui.name == userName { return true } }`
followed by `return false`, over the entries still to visit. -/
def nameLoop (userName : String) : List (String × Info) → Bool
  | [] => false
  | (_, ui) :: rest => if ui.name = userName then true else nameLoop userName rest

/-- Function `func (u *Users) isUserNameInMap(userName string) bool`. -/
def Users.isUserNameInMap (u : Users) (userName : String) : Bool :=
  nameLoop userName u.userMap

/-- Function `func NewUsers(...) *Users`: the map is empty. -/
def NewUsers : Users := { userMap := [] }

end user

namespace lookup

/-! ## Lemmas on bits -/

theorem and_two_pow_ne_zero_iff (m k : Nat) : m &&& 2 ^ k ≠ 0 ↔ m.testBit k = true := by
  constructor
  · intro h
    by_contra hb
    apply h
    apply Nat.eq_of_testBit_eq
    intro j
    rw [Nat.testBit_and, Nat.testBit_two_pow, Nat.zero_testBit]
    by_cases hj : k = j
    · subst hj; simp [hb]
    · simp [hj]
  · intro hb h
    have h2 : (m &&& 2 ^ k).testBit k = true := by
      rw [Nat.testBit_and, Nat.testBit_two_pow, hb]; simp
    rw [h, Nat.zero_testBit] at h2
    exact Bool.false_ne_true h2

theorem lt_two_pow_of_testBit_false {m i : Nat} (hlt : m < 2 ^ (i + 1))
    (hb : m.testBit i = false) : m < 2 ^ i := by
  apply Nat.lt_pow_two_of_testBit
  intro j hj
  rcases Nat.eq_or_lt_of_le hj with h | h
  · rw [← h]; exact hb
  · exact Nat.testBit_lt_two_pow (lt_of_lt_of_le hlt (Nat.pow_le_pow_right (by decide) h))

theorem testBit_false_of_lt_of_lt {m i j : Nat} (hlt : m < 2 ^ (i + 1)) (hj : i < j) :
    m.testBit j = false :=
  Nat.testBit_lt_two_pow (lt_of_lt_of_le hlt (Nat.pow_le_pow_right (by decide) hj))

/-- The loop of the code and the scan of the specification agree when the mask
is the bit of the current position. -/
theorem scanLevels_eq_specScan (mix : Nat) : ∀ i : Nat, scanLevels mix i (2 ^ i) = specScan mix i
  | 0 => rfl
  | i + 1 => by
    have hm : (2 ^ (i + 1)) >>> 1 = 2 ^ i := by
      rw [Nat.shiftRight_eq_div_pow, pow_succ]; simp
    have ih := scanLevels_eq_specScan mix i
    by_cases hb : mix.testBit (i + 1) = true
    · have h1 : mix &&& 2 ^ (i + 1) ≠ 0 := (and_two_pow_ne_zero_iff mix (i + 1)).2 hb
      simp only [scanLevels, specScan, h1, hb, ne_eq, not_false_eq_true, if_true]
    · have h1 : ¬ (mix &&& 2 ^ (i + 1) ≠ 0) := fun h =>
        hb ((and_two_pow_ne_zero_iff mix (i + 1)).1 h)
      simp only [scanLevels, specScan, h1, hb, if_false, hm, ih]
      simp

/-- The scan returns the highest set bit of a nonzero `mix` below `2^(i+1)`. -/
theorem specScan_highest (mix : Nat) : ∀ i : Nat, mix < 2 ^ (i + 1) → mix ≠ 0 →
    mix.testBit (specScan mix i) = true ∧ ∀ j, specScan mix i < j → mix.testBit j = false
  | 0, hlt, hne => by
    have h1 : mix = 1 := by omega
    subst h1
    refine ⟨by simp [specScan], ?_⟩
    intro j hj
    exact testBit_false_of_lt_of_lt hlt hj
  | i + 1, hlt, hne => by
    by_cases hb : mix.testBit (i + 1) = true
    · simp only [specScan, hb, if_true]
      exact ⟨trivial, fun j hj => testBit_false_of_lt_of_lt hlt hj⟩
    · have hb2 : mix.testBit (i + 1) = false := by simpa using hb
      simp only [specScan, hb2, Bool.false_eq_true, if_false]
      exact specScan_highest mix i (lt_two_pow_of_testBit_false hlt hb2) hne

theorem specScan_le (mix : Nat) : ∀ i : Nat, specScan mix i ≤ i
  | 0 => Nat.le_refl 0
  | i + 1 => by
    have := specScan_le mix i
    simp only [specScan]
    split <;> omega

/-! ## Lemmas on the code -/

/-- The body of `GetNextLevel`, with its constants evaluated and the loop
replaced by the scan over bit positions. -/
theorem GetNextLevel_eq (last : Epoch) (now : Nat) :
    GetNextLevel last now =
      if mixOf last now > 2 ^ 32 - 1 then 31 else specScan (mixOf last now) 31 := by
  have h1 : maxuint64 >>> (64 - HighestLevel - 1) = 2 ^ 32 - 1 := by decide
  have h2 : (1 : Nat) <<< HighestLevel = 2 ^ 31 := by decide
  have h3 : HighestLevel = 31 := rfl
  unfold GetNextLevel
  simp only [h1, h2]
  rw [h3, scanLevels_eq_specScan]
  rfl

theorem GetNextLevel_le (last : Epoch) (now : Nat) : GetNextLevel last now ≤ 31 := by
  rw [GetNextLevel_eq]
  split
  · exact Nat.le_refl 31
  · exact specScan_le _ 31

/-- For a level from 1 to 31 the bit that the code sets is bit `Level - 1`. -/
theorem mixOf_eq_specMix (last : Epoch) (now : Nat) (h1 : 1 ≤ last.Level)
    (h2 : last.Level ≤ 31) : mixOf last now = specMix last now := by
  have hs : sub8 last.Level 1 = last.Level - 1 := by unfold sub8; omega
  have hp : 2 ^ (last.Level - 1) < 2 ^ 64 :=
    Nat.pow_lt_pow_right (by decide) (by omega)
  unfold mixOf specMix shl64
  rw [hs, Nat.one_shiftLeft, Nat.mod_eq_of_lt hp]

/-- When `mix` is in the range of the loop and not zero, the level returned is
its highest set bit. -/
theorem GetNextLevel_highest (last : Epoch) (now : Nat) (hle : ¬ mixOf last now > 2 ^ 32 - 1)
    (hne : mixOf last now ≠ 0) :
    (mixOf last now).testBit (GetNextLevel last now) = true ∧
      ∀ j, GetNextLevel last now < j → (mixOf last now).testBit j = false := by
  rw [GetNextLevel_eq, if_neg hle]
  have hlt : mixOf last now < 2 ^ (31 + 1) := by
    have : (2 : Nat) ^ (31 + 1) = 2 ^ 32 - 1 + 1 := by decide
    omega
  exact specScan_highest _ 31 hlt hne

/-- A set bit of `mix` bounds the level returned from below. -/
theorem le_GetNextLevel_of_testBit (last : Epoch) (now j : Nat)
    (hb : (mixOf last now).testBit j = true) : min j 31 ≤ GetNextLevel last now := by
  by_cases hgt : mixOf last now > 2 ^ 32 - 1
  · rw [GetNextLevel_eq, if_pos hgt]; exact Nat.min_le_right j 31
  · have hne : mixOf last now ≠ 0 := by
      intro h0
      rw [h0, Nat.zero_testBit] at hb
      exact Bool.false_ne_true hb
    have h := (GetNextLevel_highest last now hgt hne).2
    by_contra hc
    have hlt : GetNextLevel last now < j := by
      rcases Nat.lt_or_ge (GetNextLevel last now) j with h1 | h1
      · exact h1
      · exact absurd (le_trans (Nat.min_le_left j 31) h1) hc
    rw [h j hlt] at hb
    exact Bool.false_ne_true hb

/-- The bits of an epoch base: those of the time from the level up, within 64
bits. -/
theorem testBit_getBaseTime (t level j : Nat) :
    (getBaseTime t level).testBit j = (t.testBit j && decide (level ≤ j) && decide (j < 64)) := by
  unfold getBaseTime shl64 maxuint64
  rw [Nat.testBit_and, Nat.testBit_mod_two_pow, Nat.testBit_shiftLeft,
    Nat.testBit_two_pow_sub_one]
  by_cases h1 : level ≤ j <;> by_cases h2 : j < 64 <;> simp [h1, h2]
  omega

theorem getBaseTime_eq (t level : Nat) (ht : t < 2 ^ 64) :
    getBaseTime t level = 2 ^ level * (t / 2 ^ level) := by
  apply Nat.eq_of_testBit_eq
  intro j
  rw [testBit_getBaseTime, Nat.testBit_mul_pow_two, ← Nat.shiftRight_eq_div_pow,
    Nat.testBit_shiftRight]
  by_cases h1 : level ≤ j
  · have h3 : level + (j - level) = j := by omega
    rw [h3]
    by_cases h2 : j < 64
    · simp [h1, h2]
    · have h4 : t.testBit j = false :=
        Nat.testBit_lt_two_pow (lt_of_lt_of_le ht (Nat.pow_le_pow_right (by decide) (by omega)))
      simp [h4]
  · simp [h1]

theorem GetNextEpoch_Time (last : Epoch) (now : Nat) : (GetNextEpoch last now).Time = now := by
  unfold GetNextEpoch GetFirstEpoch
  split <;> rfl

theorem GetNextEpoch_Level_of_ne (last : Epoch) (now : Nat) (h : last ≠ NoClue) :
    (GetNextEpoch last now).Level = GetNextLevel last now := by
  unfold GetNextEpoch
  rw [if_neg h]

/-- A level from 1 to 31 sets bit `Level - 1` of `mix`. -/
theorem mixOf_testBit_pred (last : Epoch) (now : Nat) (h1 : 1 ≤ last.Level)
    (h2 : last.Level ≤ 31) : (mixOf last now).testBit (last.Level - 1) = true := by
  rw [mixOf_eq_specMix last now h1 h2]
  unfold specMix
  rw [Nat.testBit_or, Nat.testBit_two_pow_self, Bool.or_true]

/-- A bit of `mix` other than the one the code sets is a bit of
`last.Base() ^ now`. -/
theorem mixOf_testBit_of_ne (last : Epoch) (now j : Nat) (h1 : 1 ≤ last.Level)
    (h2 : last.Level ≤ 31) (hj : last.Level - 1 ≠ j) :
    (mixOf last now).testBit j = (last.Base.testBit j ^^ now.testBit j) := by
  rw [mixOf_eq_specMix last now h1 h2]
  unfold specMix
  rw [Nat.testBit_or, Nat.testBit_two_pow_of_ne hj, Bool.or_false, Nat.testBit_xor]

/-- A number above `2^n - 1` has a set bit at position `n` or higher. -/
theorem exists_testBit_of_ge (m n : Nat) (h : 2 ^ n ≤ m) : ∃ j, n ≤ j ∧ m.testBit j = true := by
  by_contra hc
  have hall : ∀ j, j ≥ n → m.testBit j = false := by
    intro j hj
    by_contra hb
    exact hc ⟨j, hj, by simpa using hb⟩
  have := Nat.lt_pow_two_of_testBit m hall
  omega

/-! ## The claims on epoch placement -/

/-- C1: for a last epoch of level 1 to 31, `GetNextLevel` is the level of the
specification's `next_epoch` rule: with `mix` the XOR of the last base and
`now` with bit `Level - 1` set, it is 31 when `mix > 2^32 - 1`, and otherwise
the index of the highest set bit of `mix`. -/
theorem GetNextLevel_eq_specNextLevel (last : Epoch) (now : Nat) (h1 : 1 ≤ last.Level)
    (h2 : last.Level ≤ 31) :
    GetNextLevel last now = specNextLevel last now ∧
    (specMix last now > 2 ^ 32 - 1 → GetNextLevel last now = 31) ∧
    (¬ specMix last now > 2 ^ 32 - 1 →
      (specMix last now).testBit (GetNextLevel last now) = true ∧
      ∀ j, GetNextLevel last now < j → (specMix last now).testBit j = false) := by
  have hm := mixOf_eq_specMix last now h1 h2
  refine ⟨?_, ?_, ?_⟩
  · rw [GetNextLevel_eq, hm]; rfl
  · intro hgt
    rw [GetNextLevel_eq, hm, if_pos hgt]
  · intro hle
    have hne : mixOf last now ≠ 0 := by
      intro h0
      have hb := mixOf_testBit_pred last now h1 h2
      rw [h0, Nat.zero_testBit] at hb
      exact Bool.false_ne_true hb
    rw [← hm] at hle ⊢
    exact GetNextLevel_highest last now hle hne

theorem GetNextLevel_eq_specNextLevel_witness :
    GetNextLevel { Time := 1000, Level := 25 } 1010 =
        specNextLevel { Time := 1000, Level := 25 } 1010 ∧
    GetNextLevel { Time := 1000, Level := 25 } 1010 = 24 :=
  ⟨(GetNextLevel_eq_specNextLevel { Time := 1000, Level := 25 } 1010
      (by decide) (by decide)).1, by decide⟩

/-- C2: for a last epoch of level 1 to 31, the level `GetNextLevel` returns is
at least `Level - 1`; when it is lower than `Level` it is exactly
`Level - 1`. -/
theorem GetNextLevel_ge_pred (last : Epoch) (now : Nat) (h1 : 1 ≤ last.Level)
    (h2 : last.Level ≤ 31) :
    last.Level - 1 ≤ GetNextLevel last now ∧
    (GetNextLevel last now < last.Level → GetNextLevel last now = last.Level - 1) := by
  have h := le_GetNextLevel_of_testBit last now (last.Level - 1)
    (mixOf_testBit_pred last now h1 h2)
  have hmin : min (last.Level - 1) 31 = last.Level - 1 := Nat.min_eq_left (by omega)
  rw [hmin] at h
  exact ⟨h, fun hlt => by omega⟩

theorem GetNextLevel_ge_pred_witness :
    7 - 1 ≤ GetNextLevel { Time := 4096, Level := 7 } 4100 ∧
    GetNextLevel { Time := 4096, Level := 7 } 4100 = 6 :=
  ⟨(GetNextLevel_ge_pred { Time := 4096, Level := 7 } 4100 (by decide) (by decide)).1,
    by decide⟩

/-- C3: `GetNextEpoch` does not place the next update in the epoch of the last
one.  For a last epoch of level 1 to 31 and every `now`, and for a last epoch
of level 0 other than `NoClue` whenever `now` is not its time, the epoch
returned differs from the last one in its level or in its base. -/
theorem GetNextEpoch_ne_last_epoch (last : Epoch) (now : Nat) (hT : last.Time < 2 ^ 64)
    (hnow : now < 2 ^ 64)
    (h : (1 ≤ last.Level ∧ last.Level ≤ 31) ∨
      (last.Level = 0 ∧ last ≠ NoClue ∧ now ≠ last.Time)) :
    (GetNextEpoch last now).Level ≠ last.Level ∨
    getBaseTime (GetNextEpoch last now).Time (GetNextEpoch last now).Level ≠
      getBaseTime last.Time last.Level := by
  by_contra hc
  have hL : (GetNextEpoch last now).Level = last.Level := by
    by_contra h1; exact hc (Or.inl h1)
  have hB : getBaseTime now last.Level = last.Base := by
    by_contra h1
    apply hc
    right
    rw [GetNextEpoch_Time, hL]
    exact h1
  rcases h with ⟨h1, h2⟩ | ⟨h0, _, hne⟩
  · have hnc : last ≠ NoClue := by
      intro he
      rw [he] at h1
      exact absurd h1 (by decide)
    rw [GetNextEpoch_Level_of_ne last now hnc] at hL
    have hbit : ∀ j, last.Level ≤ j → last.Level - 1 ≠ j →
        (mixOf last now).testBit j = false := by
      intro j hj hj2
      rw [mixOf_testBit_of_ne last now j h1 h2 hj2, ← hB, testBit_getBaseTime]
      by_cases h64 : j < 64
      · simp [hj, h64]
      · have hn : now.testBit j = false :=
          Nat.testBit_lt_two_pow
            (lt_of_lt_of_le hnow (Nat.pow_le_pow_right (by decide) (by omega)))
        simp [hn]
    by_cases hgt : mixOf last now > 2 ^ 32 - 1
    · obtain ⟨j, hj, hb⟩ := exists_testBit_of_ge (mixOf last now) 32 (by omega)
      rw [hbit j (by omega) (by omega)] at hb
      exact Bool.false_ne_true hb
    · have hne : mixOf last now ≠ 0 := by
        intro h0
        have hb := mixOf_testBit_pred last now h1 h2
        rw [h0, Nat.zero_testBit] at hb
        exact Bool.false_ne_true hb
      have hb := (GetNextLevel_highest last now hgt hne).1
      rw [hL, hbit last.Level (Nat.le_refl _) (by omega)] at hb
      exact Bool.false_ne_true hb
  · apply hne
    unfold Epoch.Base at hB
    rw [h0, getBaseTime_eq now 0 hnow, getBaseTime_eq last.Time 0 hT] at hB
    simpa using hB

theorem GetNextEpoch_ne_last_epoch_witness :
    (GetNextEpoch { Time := 1000, Level := 25 } 1010).Level ≠ 25 ∨
    getBaseTime (GetNextEpoch { Time := 1000, Level := 25 } 1010).Time
        (GetNextEpoch { Time := 1000, Level := 25 } 1010).Level ≠
      getBaseTime 1000 25 :=
  GetNextEpoch_ne_last_epoch { Time := 1000, Level := 25 } 1010 (by decide) (by decide)
    (Or.inl ⟨by decide, by decide⟩)

/-- C4: when `now` is at least `2^31` seconds after the base of the last epoch,
`GetNextLevel` returns the highest level, 31; this holds for a last epoch of any
level, those up to 31 included. -/
theorem GetNextLevel_eq_HighestLevel_of_old (last : Epoch) (now : Nat)
    (hge : last.Base ≤ now) (hold : 2 ^ 31 ≤ now - last.Base) :
    GetNextLevel last now = HighestLevel := by
  have hx : 2 ^ 31 ≤ last.Base ^^^ now := by
    by_contra hlt
    have hlt2 : last.Base ^^^ now < 2 ^ 31 := by omega
    have hdiv : last.Base / 2 ^ 31 = now / 2 ^ 31 := by
      apply Nat.eq_of_testBit_eq
      intro j
      rw [← Nat.shiftRight_eq_div_pow, ← Nat.shiftRight_eq_div_pow,
        Nat.testBit_shiftRight, Nat.testBit_shiftRight]
      have hb : (last.Base ^^^ now).testBit (31 + j) = false :=
        Nat.testBit_lt_two_pow
          (lt_of_lt_of_le hlt2 (Nat.pow_le_pow_right (by decide) (by omega)))
      rw [Nat.testBit_xor] at hb
      simpa using hb
    have e1 := Nat.div_add_mod last.Base (2 ^ 31)
    have e2 := Nat.div_add_mod now (2 ^ 31)
    have l1 := Nat.mod_lt last.Base (Nat.two_pow_pos 31)
    have l2 := Nat.mod_lt now (Nat.two_pow_pos 31)
    rw [hdiv] at e1
    omega
  obtain ⟨j, hj, hb⟩ := exists_testBit_of_ge _ 31 hx
  have hb2 : (mixOf last now).testBit j = true := by
    unfold mixOf
    rw [Nat.testBit_or, hb, Bool.true_or]
  have h := le_GetNextLevel_of_testBit last now j hb2
  have hmin : min j 31 = 31 := Nat.min_eq_right hj
  rw [hmin] at h
  have := GetNextLevel_le last now
  unfold HighestLevel
  omega

theorem GetNextLevel_eq_HighestLevel_of_old_witness :
    GetNextLevel { Time := 5, Level := 0 } (2 ^ 31 + 5) = HighestLevel :=
  GetNextLevel_eq_HighestLevel_of_old { Time := 5, Level := 0 } (2 ^ 31 + 5)
    (by decide) (by decide)

/-- C5: the first update uses the coarsest level: `GetNextEpoch NoClue now` is
`GetFirstEpoch now`, the epoch of time `now` and level 31. -/
theorem GetNextEpoch_NoClue (now : Nat) :
    GetNextEpoch NoClue now = GetFirstEpoch now ∧
    GetFirstEpoch now = { Time := now, Level := 31 } := by
  constructor
  · unfold GetNextEpoch
    rw [if_pos rfl]
  · rfl

/-- C6: for a 64-bit `t`, `b = getBaseTime t level` is the start of the interval
of length `2^level` that contains `t`: `b ≤ t`, `t < b + 2^level`, the low
`level` bits of `b` are zero and `b` is a multiple of `2^level`; this holds for
every level, those from 0 to 31 included. -/
theorem getBaseTime_interval (t level : Nat) (ht : t < 2 ^ 64) :
    getBaseTime t level ≤ t ∧ t < getBaseTime t level + 2 ^ level ∧
    (∀ j, j < level → (getBaseTime t level).testBit j = false) ∧
    getBaseTime t level % 2 ^ level = 0 := by
  have hb := getBaseTime_eq t level ht
  have e1 := Nat.div_add_mod t (2 ^ level)
  have l1 := Nat.mod_lt t (Nat.two_pow_pos level)
  refine ⟨by omega, by omega, ?_, ?_⟩
  · intro j hj
    rw [testBit_getBaseTime]
    have : ¬ level ≤ j := by omega
    simp [this]
  · rw [hb]
    exact Nat.mul_mod_right _ _

theorem getBaseTime_interval_witness :
    getBaseTime 1010 5 ≤ 1010 ∧ 1010 < getBaseTime 1010 5 + 2 ^ 5 ∧
    (∀ j, j < 5 → (getBaseTime 1010 5).testBit j = false) ∧
    getBaseTime 1010 5 % 2 ^ 5 = 0 :=
  getBaseTime_interval 1010 5 (by decide)

/-- C7: for every last epoch (any level, any time) and every `now`, the epoch
`GetNextEpoch` returns has time `now` and a level from 0 to 31, and
`GetNextLevel` returns no level above `HighestLevel`. -/
theorem GetNextEpoch_Time_Level (last : Epoch) (now : Nat) :
    (GetNextEpoch last now).Time = now ∧
    LowestLevel ≤ (GetNextEpoch last now).Level ∧
    (GetNextEpoch last now).Level ≤ 31 ∧
    GetNextLevel last now ≤ HighestLevel := by
  refine ⟨GetNextEpoch_Time last now, Nat.zero_le _, ?_, GetNextLevel_le last now⟩
  by_cases h : last = NoClue
  · unfold GetNextEpoch
    rw [if_pos h]
    exact Nat.le_refl 31
  · rw [GetNextEpoch_Level_of_ne last now h]
    exact GetNextLevel_le last now

end lookup

namespace dir

variable {σ τ δ : Type}

/-! ## Lemmas on `MkDir` -/

@[simp] theorem afterCall_fd (d : Directory σ τ δ) (fd : σ) (c : FeedCall τ δ) :
    (d.afterCall fd c).fd = fd := rfl

@[simp] theorem afterCall_dirMap (d : Directory σ τ δ) (fd : σ) (c : FeedCall τ δ) :
    (d.afterCall fd c).dirMap = d.dirMap := rfl

@[simp] theorem afterCall_calls (d : Directory σ τ δ) (fd : σ) (c : FeedCall τ δ) :
    (d.afterCall fd c).calls = d.calls ++ [c] := rfl

@[simp] theorem AddToDirectoryMap_fd (d : Directory σ τ δ) (k : String) (i : Inode) :
    (d.AddToDirectoryMap k i).fd = d.fd := rfl

@[simp] theorem AddToDirectoryMap_calls (d : Directory σ τ δ) (k : String) (i : Inode) :
    (d.AddToDirectoryMap k i).calls = d.calls := rfl

theorem AddToDirectoryMap_dirMap_self (d : Directory σ τ δ) (k : String) (i : Inode) :
    (d.AddToDirectoryMap k i).dirMap k = some i := by
  simp [Directory.AddToDirectoryMap]

theorem AddToDirectoryMap_dirMap_of_ne (d : Directory σ τ δ) (k k' : String) (i : Inode)
    (h : k' ≠ k) : (d.AddToDirectoryMap k i).dirMap k' = d.dirMap k' := by
  simp [Directory.AddToDirectoryMap, h]

/-- An empty name, or one that starts with the separator, is refused before any
call on the feed. -/
theorem MkDir_invalid (env : Env σ τ δ) (d : Directory σ τ δ) (now : Int) (p : String)
    (h : env.Base p = "" ∨ HasPrefix (env.Base p) env.PathSeperator = true) :
    MkDir env d now p = (.error .ErrInvalidDirectoryName, d) := by
  unfold MkDir
  simp only [if_pos h]

/-- A name of more than `nameLength` bytes that passed the first check is
refused before any call on the feed. -/
theorem MkDir_tooLong (env : Env σ τ δ) (d : Directory σ τ δ) (now : Int) (p : String)
    (h : ¬ (env.Base p = "" ∨ HasPrefix (env.Base p) env.PathSeperator = true))
    (hl : len (env.Base p) > nameLength) :
    MkDir env d now p = (.error .ErrTooLongDirectoryName, d) := by
  unfold MkDir
  simp only [if_neg h, if_pos hl]

/-- No return of `MkDir` after the check of the length gives
`ErrTooLongDirectoryName`. -/
theorem MkDir_not_tooLong (env : Env σ τ δ) (d : Directory σ τ δ) (now : Int) (p : String)
    (hl : ¬ len (env.Base p) > nameLength) :
    (MkDir env d now p).1 ≠ .error .ErrTooLongDirectoryName := by
  unfold MkDir
  simp only [if_neg hl]
  intro h
  repeat' split at h
  all_goals simp at h

/-- In the feed in memory, creating a feed leaves the other topics as they
were. -/
theorem memCreateFeed_frame (fd : String → Option Inode) (t t' : String) (data : Inode)
    (h : t ≠ t') : memGetFeedData (memCreateFeed fd t data).2 t' = memGetFeedData fd t' := by
  unfold memCreateFeed
  split
  · rfl
  · have h' : ¬ t' = t := fun e => h e.symm
    simp only [memGetFeedData, if_neg h']

/-! ## The claims on `MkDir` -/

/-- When `MkDir` returns nil for a path with parent `Dir p` and name `Base p`,
the child list stored for the parent (in the directory map, and in the payload
of the `UpdateFeed` call that ends the run) is the list its feed held before,
with the one entry `"_D_" ++ name` appended, and the directory map holds, at the
full path of the new directory, an inode whose `Meta.Name` is the name and whose
`Meta.Path` is the parent.  The feed and the hash are parameters: the topics of
the full path and of the parent differ, and creating a feed leaves what is read
at the other topics. -/
theorem MkDir_nil_appends (env : Env σ τ δ) (d d' : Directory σ τ δ) (now : Int) (p : String)
    (h : MkDir env d now p = (Outcome.nil, d'))
    (htopic : env.HashString (env.CombinePathAndFile (env.Dir p) (env.Base p)) ≠
      env.HashString (env.Dir p))
    (hframe : ∀ (fd : σ) (t : τ) (data : δ), t ≠ env.HashString (env.Dir p) →
      (env.CreateFeed fd t data).1 = none →
      env.GetFeedData (env.CreateFeed fd t data).2 (env.HashString (env.Dir p)) =
        env.GetFeedData fd (env.HashString (env.Dir p))) :
    ∃ (prev : Inode) (parentData : δ),
      env.Unmarshal (env.GetFeedData d.fd (env.HashString (env.Dir p))).data = .ok (some prev) ∧
      d'.dirMap (env.Dir p) =
        some { prev with FileOrDirNames := prev.FileOrDirNames ++ ["_D_" ++ env.Base p] } ∧
      env.Marshal { prev with FileOrDirNames := prev.FileOrDirNames ++ ["_D_" ++ env.Base p] } =
        .ok parentData ∧
      d'.calls.getLast? = some (.UpdateFeed (env.HashString (env.Dir p)) parentData) ∧
      ∃ (inode : Inode) (m : MetaData),
        d'.dirMap (env.CombinePathAndFile (env.Dir p) (env.Base p)) = some inode ∧
        inode.Meta = some m ∧ m.Name = env.Base p ∧ m.Path = env.Dir p := by
  have hne : env.CombinePathAndFile (env.Dir p) (env.Base p) ≠ env.Dir p := by
    intro he
    exact htopic (congrArg env.HashString he)
  unfold MkDir at h
  simp only [afterCall_fd, AddToDirectoryMap_fd] at h
  split at h
  · simp at h
  split at h
  · simp at h
  split at h
  · simp at h
  split at h
  · simp at h
  split at h
  · simp at h
  split at h
  · simp at h
  split at h
  · simp at h
  · simp at h
  split at h
  · simp at h
  split at h
  · simp at h
  next _ _ _ _ data _ _ hcreate _ _ _ prev hun _ parentData hmar _ _ =>
    have hd := (Prod.mk.inj h).2
    subst hd
    rw [hframe _ _ _ htopic hcreate] at hun
    refine ⟨prev, parentData, hun, AddToDirectoryMap_dirMap_self _ _ _, hmar, ?_, ?_⟩
    · simp
    · refine ⟨⟨some ⟨env.MetaVersion, env.Dir p, env.Base p, now, now, now⟩, []⟩, _, ?_,
        rfl, rfl, rfl⟩
      rw [AddToDirectoryMap_dirMap_of_ne _ _ _ _ hne]
      simp only [afterCall_dirMap]
      exact AddToDirectoryMap_dirMap_self _ _ _

/-- A run with a root: after `MkRootDir` on a new directory object, `MkDir` of
`/baseDir` returns nil, the root holds the one child entry `_D_baseDir` and the
directory map holds the inode of `/baseDir`. -/
theorem MkDir_nil_appends_witness :
    (MkRootDir memEnv memNew 0).1 = Outcome.nil ∧
    MkDir memEnv memRoot 5 "/baseDir" = (Outcome.nil, memBaseDir) ∧
    (∃ (prev : Inode) (parentData : Inode),
      memEnv.Unmarshal
          (memEnv.GetFeedData memRoot.fd (memEnv.HashString (memEnv.Dir "/baseDir"))).data =
        .ok (some prev) ∧
      memBaseDir.dirMap (memEnv.Dir "/baseDir") =
        some { prev with
          FileOrDirNames := prev.FileOrDirNames ++ ["_D_" ++ memEnv.Base "/baseDir"] } ∧
      memEnv.Marshal { prev with
          FileOrDirNames := prev.FileOrDirNames ++ ["_D_" ++ memEnv.Base "/baseDir"] } =
        .ok parentData ∧
      memBaseDir.calls.getLast? =
        some (.UpdateFeed (memEnv.HashString (memEnv.Dir "/baseDir")) parentData) ∧
      ∃ (inode : Inode) (m : MetaData),
        memBaseDir.dirMap
            (memEnv.CombinePathAndFile (memEnv.Dir "/baseDir") (memEnv.Base "/baseDir")) =
          some inode ∧
        inode.Meta = some m ∧ m.Name = memEnv.Base "/baseDir" ∧
        m.Path = memEnv.Dir "/baseDir") ∧
    memEnv.Dir "/baseDir" = "/" ∧ memEnv.Base "/baseDir" = "baseDir" ∧
    memEnv.CombinePathAndFile "/" "baseDir" = "/baseDir" ∧
    (memRoot.dirMap "/").map Inode.FileOrDirNames = some [] ∧
    (memBaseDir.dirMap "/").map Inode.FileOrDirNames = some ["_D_baseDir"] ∧
    ((memBaseDir.dirMap "/baseDir").bind Inode.Meta).map MetaData.Name = some "baseDir" ∧
    ((memBaseDir.dirMap "/baseDir").bind Inode.Meta).map MetaData.Path = some "/" :=
  ⟨by decide, Prod.ext (by decide) rfl,
    MkDir_nil_appends memEnv memRoot memBaseDir 5 "/baseDir"
      (Prod.ext (by decide) rfl) (by decide)
      (fun fd t data ht _ => memCreateFeed_frame fd t _ data ht),
    by decide, by decide, by decide, by decide, by decide, by decide, by decide⟩

/-- When the feed of the parent cannot be read, `MkDir` does not return nil:
it ends with one of its errors, at the latest with the error of the
`GetFeedData` call for the parent, made after the feed of the new directory was
created.  The feed and the hash are parameters, as above. -/
theorem MkDir_parent_unread (env : Env σ τ δ) (d : Directory σ τ δ) (now : Int) (p : String)
    (e : String)
    (hget : (env.GetFeedData d.fd (env.HashString (env.Dir p))).err = some e)
    (htopic : env.HashString (env.CombinePathAndFile (env.Dir p) (env.Base p)) ≠
      env.HashString (env.Dir p))
    (hframe : ∀ (fd : σ) (t : τ) (data : δ), t ≠ env.HashString (env.Dir p) →
      (env.CreateFeed fd t data).1 = none →
      env.GetFeedData (env.CreateFeed fd t data).2 (env.HashString (env.Dir p)) =
        env.GetFeedData fd (env.HashString (env.Dir p))) :
    (MkDir env d now p).1 ≠ Outcome.nil := by
  intro h
  unfold MkDir at h
  simp only [afterCall_fd, AddToDirectoryMap_fd] at h
  split at h
  · simp at h
  split at h
  · simp at h
  split at h
  · simp at h
  split at h
  · simp at h
  split at h
  · simp at h
  split at h
  · simp at h
  next _ _ _ _ data _ _ hcreate _ herr =>
    rw [hframe _ _ _ htopic hcreate, hget] at herr
    simp at herr

/-- C8 fails on the code, on the sequence of its test `simple-mkdir`: on a
directory object as `NewDirectory` returns it, with nothing in the feed and no
`MkRootDir` made, `MkDir` of `/baseDir` does not return nil.  It creates the feed
of `/baseDir`, then returns the error of the `GetFeedData` call for the parent
`/`; the parent gets no child list, in the feed or in the directory map, so
there is no directory `baseDir` to list under `/`, and a second `MkDir` of the
same path returns `ErrDirectoryAlreadyPresent`. -/
theorem MkDir_new_directory_fails :
    memNew.calls = [] ∧ memNew.fd "/" = none ∧
    memEnv.Dir "/baseDir" = "/" ∧ memEnv.Base "/baseDir" = "baseDir" ∧
    (MkDir memEnv memNew 5 "/baseDir").1 =
      Outcome.error (Error.foreign "feed does not exist or was not updated yet") ∧
    (MkDir memEnv memNew 5 "/baseDir").1 ≠ Outcome.nil ∧
    (MkDir memEnv memNew 5 "/baseDir").2.calls =
      [FeedCall.GetFeedData "/baseDir",
        FeedCall.CreateFeed "/baseDir"
          { Meta := some { Version := 1, Path := "/", Name := "baseDir", CreationTime := 5,
                           ModificationTime := 5, AccessTime := 5 },
            FileOrDirNames := [] },
        FeedCall.GetFeedData "/"] ∧
    (MkDir memEnv memNew 5 "/baseDir").2.fd "/" = none ∧
    (MkDir memEnv memNew 5 "/baseDir").2.dirMap "/" = none ∧
    (MkDir memEnv (MkDir memEnv memNew 5 "/baseDir").2 6 "/baseDir").1 =
      Outcome.error Error.ErrDirectoryAlreadyPresent := by
  refine ⟨rfl, rfl, by decide, by decide, by decide, by decide, by decide, by decide,
    by decide, by decide⟩

/-- C9: `MkDir` enforces the bound of 100 bytes on the directory name.  For a
path whose base name is exactly 100 bytes long it does not return
`ErrTooLongDirectoryName`; for a path whose base name is 101 bytes or longer and
does not start with the path separator it returns `ErrTooLongDirectoryName`
and leaves the directory object as it was: no call on the feed is made, the
feed and the directory map are unchanged. -/
theorem MkDir_nameLength (env : Env σ τ δ) (d : Directory σ τ δ) (now : Int) (p : String) :
    (len (env.Base p) = 100 → (MkDir env d now p).1 ≠ .error .ErrTooLongDirectoryName) ∧
    (101 ≤ len (env.Base p) → HasPrefix (env.Base p) env.PathSeperator = false →
      MkDir env d now p = (.error .ErrTooLongDirectoryName, d)) := by
  constructor
  · intro h
    apply MkDir_not_tooLong
    unfold nameLength
    omega
  · intro h hp
    apply MkDir_tooLong
    · intro hc
      rcases hc with h0 | h1
      · rw [h0] at h
        exact absurd h (by decide)
      · rw [hp] at h1
        exact Bool.false_ne_true h1
    · unfold nameLength
      omega

/-- C9, on a run: under the root, the name of 100 bytes is created and the name
of 101 bytes is refused with `ErrTooLongDirectoryName`. -/
theorem MkDir_nameLength_witness :
    len (memEnv.Base (pathOfLength 100)) = 100 ∧
    (MkDir memEnv memRoot 5 (pathOfLength 100)).1 ≠ .error .ErrTooLongDirectoryName ∧
    (MkDir memEnv memRoot 5 (pathOfLength 100)).1 = .nil ∧
    101 ≤ len (memEnv.Base (pathOfLength 101)) ∧
    MkDir memEnv memRoot 5 (pathOfLength 101) = (.error .ErrTooLongDirectoryName, memRoot) :=
  ⟨by decide,
    (MkDir_nameLength memEnv memRoot 5 (pathOfLength 100)).1 (by decide),
    by decide, by decide,
    (MkDir_nameLength memEnv memRoot 5 (pathOfLength 101)).2 (by decide) (by decide)⟩

/-- C10 as stated fails: a feed exists at the topic of the full path
(`GetFeedData` returns no error, an address and data), the name is 101 bytes
long, and `MkDir` returns `ErrTooLongDirectoryName`, not
`ErrDirectoryAlreadyPresent`. -/
theorem MkDir_already_present_counterexample :
    (memEnv.GetFeedData memRootWithLong.fd
      (memEnv.HashString (memEnv.CombinePathAndFile (memEnv.Dir (pathOfLength 101))
        (memEnv.Base (pathOfLength 101))))).err = none ∧
    (memEnv.GetFeedData memRootWithLong.fd
      (memEnv.HashString (memEnv.CombinePathAndFile (memEnv.Dir (pathOfLength 101))
        (memEnv.Base (pathOfLength 101))))).addr ≠ none ∧
    (memEnv.GetFeedData memRootWithLong.fd
      (memEnv.HashString (memEnv.CombinePathAndFile (memEnv.Dir (pathOfLength 101))
        (memEnv.Base (pathOfLength 101))))).data ≠ none ∧
    (MkDir memEnv memRootWithLong 5 (pathOfLength 101)).1 ≠ .error .ErrDirectoryAlreadyPresent ∧
    (MkDir memEnv memRootWithLong 5 (pathOfLength 101)).1 = .error .ErrTooLongDirectoryName := by
  decide

/-- C10, amended: when the name has passed the checks of `MkDir` (it is not
empty, does not start with the path separator and is at most 100 bytes long)
and `GetFeedData` for the full path returns no error and a non-nil address and
data, `MkDir` returns `ErrDirectoryAlreadyPresent`; the feed and the directory
map are unchanged, and the one call made on the feed is that `GetFeedData`. -/
theorem MkDir_already_present (env : Env σ τ δ) (d : Directory σ τ δ) (now : Int) (p : String)
    (hname : env.Base p ≠ "") (hsep : HasPrefix (env.Base p) env.PathSeperator = false)
    (hlen : len (env.Base p) ≤ 100)
    (herr : (env.GetFeedData d.fd
      (env.HashString (env.CombinePathAndFile (env.Dir p) (env.Base p)))).err = none)
    (haddr : (env.GetFeedData d.fd
      (env.HashString (env.CombinePathAndFile (env.Dir p) (env.Base p)))).addr ≠ none)
    (hdata : (env.GetFeedData d.fd
      (env.HashString (env.CombinePathAndFile (env.Dir p) (env.Base p)))).data ≠ none) :
    (MkDir env d now p).1 = .error .ErrDirectoryAlreadyPresent ∧
    (MkDir env d now p).2.fd = d.fd ∧
    (MkDir env d now p).2.dirMap = d.dirMap ∧
    (MkDir env d now p).2.calls = d.calls ++
      [.GetFeedData (env.HashString (env.CombinePathAndFile (env.Dir p) (env.Base p)))] := by
  have h1 : ¬ (env.Base p = "" ∨ HasPrefix (env.Base p) env.PathSeperator = true) := by
    intro hc
    rcases hc with h0 | h0
    · exact hname h0
    · rw [hsep] at h0
      exact Bool.false_ne_true h0
  have h2 : ¬ len (env.Base p) > nameLength := by
    unfold nameLength
    omega
  have h3 : ((env.GetFeedData d.fd
      (env.HashString (env.CombinePathAndFile (env.Dir p) (env.Base p)))).err.isNone &&
      (env.GetFeedData d.fd
      (env.HashString (env.CombinePathAndFile (env.Dir p) (env.Base p)))).addr.isSome &&
      (env.GetFeedData d.fd
      (env.HashString (env.CombinePathAndFile (env.Dir p) (env.Base p)))).data.isSome) = true := by
    rw [herr, Option.isSome_iff_ne_none.2 haddr, Option.isSome_iff_ne_none.2 hdata]
    rfl
  have hm : MkDir env d now p = (.error .ErrDirectoryAlreadyPresent,
      d.afterCall d.fd
        (.GetFeedData (env.HashString (env.CombinePathAndFile (env.Dir p) (env.Base p))))) := by
    unfold MkDir
    simp only [if_neg h1, if_neg h2, if_pos h3]
  rw [hm]
  exact ⟨rfl, rfl, rfl, rfl⟩

/-- C10, amended, on a run: a second `MkDir` of `/baseDir` returns
`ErrDirectoryAlreadyPresent` and changes neither the feed nor the directory
map. -/
theorem MkDir_already_present_witness :
    (MkDir memEnv memBaseDir 9 "/baseDir").1 = .error .ErrDirectoryAlreadyPresent ∧
    (MkDir memEnv memBaseDir 9 "/baseDir").2.fd = memBaseDir.fd ∧
    (MkDir memEnv memBaseDir 9 "/baseDir").2.dirMap = memBaseDir.dirMap ∧
    (MkDir memEnv memBaseDir 9 "/baseDir").2.calls = memBaseDir.calls ++
      [.GetFeedData (memEnv.HashString
        (memEnv.CombinePathAndFile (memEnv.Dir "/baseDir") (memEnv.Base "/baseDir")))] :=
  MkDir_already_present memEnv memBaseDir 9 "/baseDir"
    (by decide) (by decide) (by decide) (by decide) (by decide) (by decide)

end dir

namespace dir

variable {σ τ δ : Type}

/-! ## Lemmas on `AddEntryToDir` and `RemoveEntryFromDir` -/

/-- Setting the modification time keeps the names and needs a `Meta` that is
not nil. -/
theorem setModificationTime_some (i j : Inode) (now : Int)
    (h : i.setModificationTime now = some j) :
    j.FileOrDirNames = i.FileOrDirNames ∧
    ∃ m, i.Meta = some m ∧ j.Meta = some { m with ModificationTime := now } := by
  unfold Inode.setModificationTime at h
  split at h
  · simp at h
  · next m hm =>
    have hj := Option.some.inj h
    subst hj
    exact ⟨rfl, m, hm, rfl⟩

/-- With the names kept so far in `acc`, the loop appends the names that are
not the one to delete. -/
theorem removeLoop_foldl (names : List String) (x : String) (acc : List String) :
    names.foldl (fun fileNames fileOrDirName =>
      if fileOrDirName ≠ x then fileNames ++ [fileOrDirName] else fileNames) acc =
    acc ++ names.filter (fun n => decide (n ≠ x)) := by
  induction names generalizing acc with
  | nil => simp
  | cons n ns ih =>
    rw [List.foldl_cons, ih]
    by_cases hn : n = x
    · simp [hn]
    · simp [hn]

/-- The loop keeps, in order, the names that are not the one to delete. -/
theorem removeLoop_eq_filter (names : List String) (x : String) :
    removeLoop names x = names.filter (fun n => decide (n ≠ x)) := by
  unfold removeLoop
  rw [removeLoop_foldl]
  rfl

/-- The two marks give different names. -/
theorem file_mark_ne_dir_mark (item : String) : "_F_" ++ item ≠ "_D_" ++ item := by
  intro h
  have h2 := congrArg String.data h
  simp [String.data_append] at h2

/-! ## The claims on `AddEntryToDir` and `RemoveEntryFromDir` -/

/-- C11: when `AddEntryToDir` returns nil, `parentDir` and the item are not
empty, `parentDir` is in the directory map, and the `FileOrDirNames` stored for
the parent (in the directory map, and in the payload of the `UpdateFeed` call
that ends the run) is the list read from the parent's feed with exactly one
element appended at the end, `"_F_" ++ item` for a file and `"_D_" ++ item`
otherwise; the earlier entries keep their values and their order. -/
theorem AddEntryToDir_nil_appends (env : PwEnv σ τ δ) (d d' : Directory σ τ δ) (now : Int)
    (parentDir podPassword itemToAdd : String) (isFile : Bool)
    (h : AddEntryToDir env d now parentDir podPassword itemToAdd isFile = (.nil, d')) :
    parentDir ≠ "" ∧ itemToAdd ≠ "" ∧ d.dirMap parentDir ≠ none ∧
    ∃ (prev stored : Inode) (data : δ),
      env.UnmarshalInode (env.GetFeedData d.fd (env.HashString parentDir) podPassword).data =
        .ok prev ∧
      d'.dirMap parentDir = some stored ∧
      stored.FileOrDirNames =
        prev.FileOrDirNames ++ [if isFile then "_F_" ++ itemToAdd else "_D_" ++ itemToAdd] ∧
      stored.FileOrDirNames.length = prev.FileOrDirNames.length + 1 ∧
      stored.FileOrDirNames.take prev.FileOrDirNames.length = prev.FileOrDirNames ∧
      env.Marshal stored = .ok data ∧
      d'.calls = d.calls ++ [.GetFeedData (env.HashString parentDir),
        .UpdateFeed (env.HashString parentDir) data] := by
  unfold AddEntryToDir at h
  simp only [afterCall_fd] at h
  split at h
  · simp at h
  next hp =>
  split at h
  · simp at h
  next hi =>
  split at h
  · simp at h
  next hm =>
  split at h
  · simp at h
  split at h
  · simp at h
  next _ _ prev hun =>
  split at h
  · simp at h
  next stored hset =>
  split at h
  · simp at h
  next _ data hmar =>
  split at h
  · simp at h
  have hd := (Prod.mk.inj h).2
  subst hd
  have hs := (setModificationTime_some _ _ _ hset).1
  simp only at hs
  refine ⟨hp, hi, ?_, prev, stored, data, hun, AddToDirectoryMap_dirMap_self _ _ _, hs, ?_, ?_,
    hmar, ?_⟩
  · intro hc
    apply hm
    unfold Directory.GetDirFromDirectoryMap
    rw [hc]
    rfl
  · rw [hs]; simp
  · rw [hs]; simp
  · simp

/-- C12: when `RemoveEntryFromDir` returns nil, `parentDir` and the item are
not empty, and the `FileOrDirNames` stored for the parent is the list read from
the parent's feed with every occurrence of the prefixed name removed
(`"_F_" ++ item` for a file, `"_D_" ++ item` for a directory): the prefixed name
no longer occurs, the other entries are kept in their order, each as many
times as before, the same name with the other prefix among them. -/
theorem RemoveEntryFromDir_nil_removes (env : PwEnv σ τ δ) (d d' : Directory σ τ δ) (now : Int)
    (parentDir podPassword itemToDelete : String) (isFile : Bool)
    (h : RemoveEntryFromDir env d now parentDir podPassword itemToDelete isFile = (.nil, d')) :
    parentDir ≠ "" ∧ itemToDelete ≠ "" ∧
    ∃ (prev stored : Inode) (data : δ),
      env.Unmarshal (env.GetFeedData d.fd (env.HashString parentDir) podPassword).data =
        .ok (some prev) ∧
      d'.dirMap parentDir = some stored ∧
      stored.FileOrDirNames = prev.FileOrDirNames.filter
        (fun n => decide (n ≠ if isFile then "_F_" ++ itemToDelete else "_D_" ++ itemToDelete)) ∧
      (if isFile then "_F_" ++ itemToDelete else "_D_" ++ itemToDelete) ∉ stored.FileOrDirNames ∧
      stored.FileOrDirNames.Sublist prev.FileOrDirNames ∧
      (∀ n, n ≠ (if isFile then "_F_" ++ itemToDelete else "_D_" ++ itemToDelete) →
        stored.FileOrDirNames.count n = prev.FileOrDirNames.count n) ∧
      stored.FileOrDirNames.count (if isFile then "_D_" ++ itemToDelete else "_F_" ++ itemToDelete) =
        prev.FileOrDirNames.count (if isFile then "_D_" ++ itemToDelete else "_F_" ++ itemToDelete) ∧
      env.Marshal stored = .ok data ∧
      d'.calls = d.calls ++ [.GetFeedData (env.HashString parentDir),
        .UpdateFeed (env.HashString parentDir) data] := by
  unfold RemoveEntryFromDir at h
  simp only [afterCall_fd] at h
  split at h
  · simp at h
  next hp =>
  split at h
  · simp at h
  next hi =>
  split at h
  · simp at h
  split at h
  · simp at h
  · simp at h
  next _ _ prev hun =>
  split at h
  · simp at h
  next stored hset =>
  split at h
  · simp at h
  next _ data hmar =>
  split at h
  · simp at h
  have hd := (Prod.mk.inj h).2
  subst hd
  have hs := (setModificationTime_some _ _ _ hset).1
  simp only at hs
  rw [removeLoop_eq_filter] at hs
  have hcount : ∀ n, n ≠ (if isFile then "_F_" ++ itemToDelete else "_D_" ++ itemToDelete) →
      stored.FileOrDirNames.count n = prev.FileOrDirNames.count n := by
    intro n hn
    rw [hs]
    exact List.count_filter (by simpa using hn)
  refine ⟨hp, hi, prev, stored, data, hun, AddToDirectoryMap_dirMap_self _ _ _, hs, ?_, ?_,
    hcount, ?_, hmar, ?_⟩
  · rw [hs]
    intro hc
    have := (List.mem_filter.1 hc).2
    simp at this
  · rw [hs]
    exact List.filter_sublist _
  · apply hcount
    cases isFile
    · exact file_mark_ne_dir_mark itemToDelete
    · exact fun e => file_mark_ne_dir_mark itemToDelete e.symm
  · simp

/-- C13: `AddEntryToDir` validates its arguments before it touches any state:
it returns `ErrInvalidDirectoryName` when `parentDir` is empty; otherwise
`ErrInvalidFileOrDirectoryName` when the item is empty; otherwise
`ErrDirectoryNotPresent` when `parentDir` is not in the directory map; in each
case the directory object is as before: no call on the feed, the feed and the
directory map unchanged. -/
theorem AddEntryToDir_checks (env : PwEnv σ τ δ) (d : Directory σ τ δ) (now : Int)
    (parentDir podPassword itemToAdd : String) (isFile : Bool) :
    (parentDir = "" →
      AddEntryToDir env d now parentDir podPassword itemToAdd isFile =
        (.error .ErrInvalidDirectoryName, d)) ∧
    (parentDir ≠ "" → itemToAdd = "" →
      AddEntryToDir env d now parentDir podPassword itemToAdd isFile =
        (.error .ErrInvalidFileOrDirectoryName, d)) ∧
    (parentDir ≠ "" → itemToAdd ≠ "" → d.dirMap parentDir = none →
      AddEntryToDir env d now parentDir podPassword itemToAdd isFile =
        (.error .ErrDirectoryNotPresent, d)) := by
  refine ⟨?_, ?_, ?_⟩
  · intro h1
    unfold AddEntryToDir
    rw [if_pos h1]
  · intro h1 h2
    unfold AddEntryToDir
    rw [if_neg h1, if_pos h2]
  · intro h1 h2 h3
    have h4 : (d.GetDirFromDirectoryMap parentDir).isNone = true := by
      unfold Directory.GetDirFromDirectoryMap
      rw [h3]
      rfl
    unfold AddEntryToDir
    rw [if_neg h1, if_neg h2, if_pos h4]

/-- C13, on a run, on the directory object that holds `/` and `/baseDir`. -/
theorem AddEntryToDir_checks_witness :
    AddEntryToDir memPwEnv memBaseDir 7 "" "pw" "a.txt" true =
      (.error .ErrInvalidDirectoryName, memBaseDir) ∧
    AddEntryToDir memPwEnv memBaseDir 7 "/" "pw" "" true =
      (.error .ErrInvalidFileOrDirectoryName, memBaseDir) ∧
    AddEntryToDir memPwEnv memBaseDir 7 "/other" "pw" "a.txt" true =
      (.error .ErrDirectoryNotPresent, memBaseDir) :=
  ⟨(AddEntryToDir_checks memPwEnv memBaseDir 7 "" "pw" "a.txt" true).1 rfl,
    (AddEntryToDir_checks memPwEnv memBaseDir 7 "/" "pw" "" true).2.1 (by decide) rfl,
    (AddEntryToDir_checks memPwEnv memBaseDir 7 "/other" "pw" "a.txt" true).2.2
      (by decide) (by decide) (by decide)⟩

/-- C11, on a run: the file `a.txt`, then a directory `a.txt`, are added to
`/`, which held `_D_baseDir`. -/
theorem AddEntryToDir_nil_appends_witness :
    AddEntryToDir memPwEnv memBaseDir 7 "/" "pw" "a.txt" true = (.nil, memWithFile) ∧
    AddEntryToDir memPwEnv memWithFile 8 "/" "pw" "a.txt" false = (.nil, memWithBoth) ∧
    (memBaseDir.dirMap "/").map Inode.FileOrDirNames = some ["_D_baseDir"] ∧
    (memWithFile.dirMap "/").map Inode.FileOrDirNames = some ["_D_baseDir", "_F_a.txt"] ∧
    (memWithBoth.dirMap "/").map Inode.FileOrDirNames =
      some ["_D_baseDir", "_F_a.txt", "_D_a.txt"] ∧
    ∃ (prev stored : Inode) (data : Inode),
      memPwEnv.UnmarshalInode
          (memPwEnv.GetFeedData memBaseDir.fd (memPwEnv.HashString "/") "pw").data = .ok prev ∧
      memWithFile.dirMap "/" = some stored ∧
      stored.FileOrDirNames =
        prev.FileOrDirNames ++ [if true = true then "_F_" ++ "a.txt" else "_D_" ++ "a.txt"] ∧
      stored.FileOrDirNames.length = prev.FileOrDirNames.length + 1 ∧
      stored.FileOrDirNames.take prev.FileOrDirNames.length = prev.FileOrDirNames ∧
      memPwEnv.Marshal stored = .ok data ∧
      memWithFile.calls = memBaseDir.calls ++ [.GetFeedData (memPwEnv.HashString "/"),
        .UpdateFeed (memPwEnv.HashString "/") data] :=
  ⟨Prod.ext (by decide) rfl, Prod.ext (by decide) rfl, by decide, by decide, by decide,
    (AddEntryToDir_nil_appends memPwEnv memBaseDir memWithFile 7 "/" "pw" "a.txt" true
      (Prod.ext (by decide) rfl)).2.2.2⟩

/-- C12, on a run: the file `a.txt` is removed from `/`, which held
`_D_baseDir`, `_F_a.txt` and `_D_a.txt`; the directory of the same name is
kept. -/
theorem RemoveEntryFromDir_nil_removes_witness :
    RemoveEntryFromDir memPwEnv memWithBoth 9 "/" "pw" "a.txt" true = (.nil, memRemoved) ∧
    (memWithBoth.dirMap "/").map Inode.FileOrDirNames =
      some ["_D_baseDir", "_F_a.txt", "_D_a.txt"] ∧
    (memRemoved.dirMap "/").map Inode.FileOrDirNames = some ["_D_baseDir", "_D_a.txt"] ∧
    ∃ (prev stored : Inode) (data : Inode),
      memPwEnv.Unmarshal
          (memPwEnv.GetFeedData memWithBoth.fd (memPwEnv.HashString "/") "pw").data =
        .ok (some prev) ∧
      memRemoved.dirMap "/" = some stored ∧
      stored.FileOrDirNames = prev.FileOrDirNames.filter
        (fun n => decide (n ≠ if true = true then "_F_" ++ "a.txt" else "_D_" ++ "a.txt")) ∧
      (if true = true then "_F_" ++ "a.txt" else "_D_" ++ "a.txt") ∉ stored.FileOrDirNames ∧
      stored.FileOrDirNames.Sublist prev.FileOrDirNames ∧
      (∀ n, n ≠ (if true = true then "_F_" ++ "a.txt" else "_D_" ++ "a.txt") →
        stored.FileOrDirNames.count n = prev.FileOrDirNames.count n) ∧
      stored.FileOrDirNames.count (if true = true then "_D_" ++ "a.txt" else "_F_" ++ "a.txt") =
        prev.FileOrDirNames.count (if true = true then "_D_" ++ "a.txt" else "_F_" ++ "a.txt") ∧
      memPwEnv.Marshal stored = .ok data ∧
      memRemoved.calls = memWithBoth.calls ++ [.GetFeedData (memPwEnv.HashString "/"),
        .UpdateFeed (memPwEnv.HashString "/") data] :=
  ⟨Prod.ext (by decide) rfl, by decide, by decide,
    (RemoveEntryFromDir_nil_removes memPwEnv memWithBoth memRemoved 9 "/" "pw" "a.txt" true
      (Prod.ext (by decide) rfl)).2.2⟩

end dir

namespace wasm

variable {β : Type}

/-! ## Lemmas on `kvLoadCSV` -/

theorem readStrings_line (l rest : List Char) (hl : '\n' ∉ l) :
    readStrings (l ++ '\n' :: rest) =
      ((String.mk (l ++ ['\n']), none), readAll rest) := by
  induction l with
  | nil => simp [readStrings, readAll]
  | cons c l ih =>
    have hc : c ≠ '\n' := fun e => hl (by simp [e])
    have hl2 : '\n' ∉ l := fun e => hl (by simp [e])
    rw [List.cons_append, readStrings, ih hl2]
    simp [hc]

theorem readAll_payloadOf (lines : List String) (hl : ∀ l ∈ lines, '\n' ∉ l.data)
    (rest : List Char) :
    readAll (payloadOf lines ++ rest) =
      lines.map (fun l => (String.mk (l.data ++ ['\n']), none)) ++ readAll rest := by
  induction lines with
  | nil => rfl
  | cons l ls ih =>
    have h1 : '\n' ∉ l.data := hl l (by simp)
    have h2 : ∀ l ∈ ls, '\n' ∉ l.data := fun x hx => hl x (by simp [hx])
    have e : payloadOf (l :: ls) ++ rest = l.data ++ '\n' :: (payloadOf ls ++ rest) := by
      simp [payloadOf]
    have e2 : readAll (l.data ++ '\n' :: (payloadOf ls ++ rest)) =
        (String.mk (l.data ++ ['\n']), none) :: readAll (payloadOf ls ++ rest) := by
      unfold readAll
      rw [readStrings_line _ _ h1]
      rfl
    rw [e, e2, ih h2]
    rfl

theorem readAll_nil : readAll [] = [("", some ReadErr.EOF)] := rfl

theorem TrimSuffix_newline (l : String) : TrimSuffix (String.mk (l.data ++ ['\n'])) "\n" = l := by
  unfold TrimSuffix
  have h1 : ("\n" : String).data = ['\n'] := rfl
  have h2 : (['\n'] : List Char).isSuffixOf (l.data ++ ['\n']) = true := by
    rw [List.isSuffixOf_iff_suffix]
    exact List.suffix_append _ _
  simp only [h1, h2, if_true]
  have h3 : (l.data ++ ['\n']).length - (['\n'] : List Char).length = l.data.length := by simp
  rw [h3, List.take_left]

theorem splitOn_fst (sep : Char) (cs : List Char) :
    (splitOn sep cs).1 = cs.takeWhile (fun c => c ≠ sep) := by
  induction cs with
  | nil => rfl
  | cons c cs ih =>
    by_cases hc : c = sep
    · simp [splitOn, hc]
    · simp [splitOn, hc, ih]

theorem SplitComma_eq (s : String) :
    SplitComma s = keyOf s :: (splitOn ',' s.data).2.map String.mk := by
  unfold SplitComma keyOf
  rw [splitOn_fst]

theorem failedPuts_append (cs ds : List KVCall) :
    failedPuts (cs ++ ds) = failedPuts cs + failedPuts ds := by
  induction cs with
  | nil => simp [failedPuts]
  | cons c cs ih =>
    cases c with
    | KVBatch cols => simp [failedPuts, ih]
    | Put k v f =>
      cases f
      · simp [failedPuts, ih]
      · simp [failedPuts, ih]; omega
    | Write => simp [failedPuts, ih]

theorem okPuts_append (cs ds : List KVCall) : okPuts (cs ++ ds) = okPuts cs + okPuts ds := by
  induction cs with
  | nil => simp [okPuts]
  | cons c cs ih =>
    cases c with
    | KVBatch cols => simp [okPuts, ih]
    | Put k v f =>
      cases f
      · simp [okPuts, ih]; omega
      · simp [okPuts, ih]
    | Write => simp [okPuts, ih]

/-- A pass through the body for a row read without error that ends with
`continue` counts the row once, and keeps the totals in step with the calls. -/
theorem loopBody_none_cont (env : KVEnv β) (sessionId podName tableName : String) (memory : Bool)
    (st st1 : LoopState β) (record : String)
    (h : loopBody env sessionId podName tableName memory st record none = .cont st1) :
    st1.rowCount = st.rowCount + 1 ∧ (Counted st → Counted st1) := by
  unfold loopBody at h
  simp only [reduceCtorEq, if_false, ne_eq, not_true_eq_false] at h
  split at h
  · split at h
    · simp at h
    · split at h
      · have h1 := Next.cont.inj h
        subst h1
        refine ⟨rfl, ?_⟩
        intro hc
        obtain ⟨c1, c2, c3⟩ := hc
        next hp =>
        refine ⟨?_, ?_, ?_⟩
        · simp only; omega
        · simp [failedPuts_append, failedPuts, hp, c2]
        · simp [okPuts_append, okPuts, hp, c3]
      · have h1 := Next.cont.inj h
        subst h1
        refine ⟨rfl, ?_⟩
        intro hc
        obtain ⟨c1, c2, c3⟩ := hc
        next hp =>
        refine ⟨?_, ?_, ?_⟩
        · simp only; omega
        · simp [failedPuts_append, failedPuts, hp, c2]
        · simp [okPuts_append, okPuts, hp, c3]
  · split at h
    · simp at h
    · split at h
      · simp at h
      · split at h
        · have h1 := Next.cont.inj h
          subst h1
          refine ⟨rfl, ?_⟩
          intro hc
          obtain ⟨c1, c2, c3⟩ := hc
          next hp =>
          refine ⟨?_, ?_, ?_⟩
          · simp only; omega
          · simp [failedPuts_append, failedPuts, hp, c2]
          · simp [okPuts_append, okPuts, hp, c3]
        · have h1 := Next.cont.inj h
          subst h1
          refine ⟨rfl, ?_⟩
          intro hc
          obtain ⟨c1, c2, c3⟩ := hc
          next hp =>
          refine ⟨?_, ?_, ?_⟩
          · simp only; omega
          · simp [failedPuts_append, failedPuts, hp, c2]
          · simp [okPuts_append, okPuts, hp, c3]

/-- A pass through the body for a row read without error does not end with
`break`. -/
theorem loopBody_none_ne_brk (env : KVEnv β) (sessionId podName tableName : String)
    (memory : Bool) (st st1 : LoopState β) (record : String) :
    loopBody env sessionId podName tableName memory st record none ≠ .brk st1 := by
  intro h
  unfold loopBody at h
  simp only [reduceCtorEq, if_false, ne_eq, not_true_eq_false] at h
  repeat' split at h
  all_goals simp at h

theorem loopBody_EOF (env : KVEnv β) (sessionId podName tableName : String) (memory : Bool)
    (st : LoopState β) (record : String) :
    loopBody env sessionId podName tableName memory st record (some .EOF) = .brk st := by
  unfold loopBody
  rw [if_pos rfl]

theorem loop_cons_of_cont (env : KVEnv β) (sessionId podName tableName : String) (memory : Bool)
    (r : String × Option ReadErr) (reads : List (String × Option ReadErr))
    (st st1 : LoopState β)
    (h : loopBody env sessionId podName tableName memory st r.1 r.2 = .cont st1) :
    loop env sessionId podName tableName memory (r :: reads) st =
      loop env sessionId podName tableName memory reads st1 := by
  rw [loop, h]

/-- When the loop over rows read without error, then `io.EOF`, ends with
`break`, every row was counted, and the totals are in step with the calls. -/
theorem loop_brk (env : KVEnv β) (sessionId podName tableName : String) (memory : Bool)
    (tail : String) (pre : List (String × Option ReadErr)) (hpre : ∀ x ∈ pre, x.2 = none)
    (st st' : LoopState β)
    (h : loop env sessionId podName tableName memory (pre ++ [(tail, some .EOF)]) st =
      .brk st') :
    st'.rowCount = st.rowCount + pre.length ∧ (Counted st → Counted st') := by
  induction pre generalizing st with
  | nil =>
    rw [List.nil_append, loop, loopBody_EOF] at h
    have h1 := Next.brk.inj h
    subst h1
    exact ⟨rfl, id⟩
  | cons x pre ih =>
    have hx : x.2 = none := hpre x (by simp)
    have hpre2 : ∀ y ∈ pre, y.2 = none := fun y hy => hpre y (by simp [hy])
    rw [List.cons_append, loop, hx] at h
    cases hb : loopBody env sessionId podName tableName memory st x.1 none with
    | cont st1 =>
      rw [hb] at h
      have h1 := loopBody_none_cont env sessionId podName tableName memory st st1 x.1 hb
      have h2 := ih hpre2 st1 h
      refine ⟨?_, fun hc => h2.2 (h1.2 hc)⟩
      rw [h2.1, h1.1, List.length_cons]
      omega
    | brk st1 => exact absurd hb (loopBody_none_ne_brk _ _ _ _ _ _ _ _)
    | ret msg st1 => rw [hb] at h; simp at h
    | panicked st1 => rw [hb] at h; simp at h

/-- The pass through the body for the header row, when `api.KVBatch`
succeeds: the header is put on the batch `api.KVBatch` returned, and the batch
kept is the one this put leaves. -/
theorem loopBody_header (env : KVEnv β) (sessionId podName tableName : String) (memory : Bool)
    (st : LoopState β) (hh : st.readHeader = false) (l : String) (b : β)
    (hb : env.KVBatch sessionId podName tableName (SplitComma (rowOf l)) = .ok b) :
    ∃ st1, loopBody env sessionId podName tableName memory st
        (String.mk (l.data ++ ['\n'])) none = .cont st1 ∧
      st1.readHeader = true ∧
      st1.batch = some (env.Put b env.CSVHeaderKey (rowOf l) false memory).2 ∧
      st1.calls = st.calls ++ [KVCall.KVBatch (SplitComma (rowOf l)),
        KVCall.Put env.CSVHeaderKey (rowOf l)
          (env.Put b env.CSVHeaderKey (rowOf l) false memory).1.isSome] := by
  unfold rowOf at hb ⊢
  unfold loopBody
  simp only [reduceCtorEq, if_false, ne_eq, not_true_eq_false, TrimSuffix_newline, hh,
    Bool.not_false, if_true, hb]
  split
  · exact ⟨_, rfl, rfl, rfl, by simp⟩
  · exact ⟨_, rfl, rfl, rfl, by simp⟩

/-- The pass through the body for a row after the header: the row is put on
the batch kept, and the batch kept afterwards is the one this put leaves. -/
theorem loopBody_row (env : KVEnv β) (sessionId podName tableName : String) (memory : Bool)
    (st : LoopState β) (hh : st.readHeader = true) (b : β) (hb : st.batch = some b)
    (l : String) :
    ∃ st1, loopBody env sessionId podName tableName memory st
        (String.mk (l.data ++ ['\n'])) none = .cont st1 ∧
      st1.readHeader = true ∧
      st1.batch = some (env.Put b (keyOf (rowOf l)) (rowOf l) false memory).2 ∧
      st1.calls = st.calls ++ [KVCall.Put (keyOf (rowOf l)) (rowOf l)
          (env.Put b (keyOf (rowOf l)) (rowOf l) false memory).1.isSome] := by
  unfold rowOf
  unfold loopBody
  simp only [reduceCtorEq, if_false, ne_eq, not_true_eq_false, TrimSuffix_newline, hh,
    Bool.not_true, Bool.false_eq_true, hb, SplitComma_eq]
  split
  · exact ⟨_, rfl, rfl, rfl, rfl⟩
  · exact ⟨_, rfl, rfl, rfl, rfl⟩

/-- The loop over the rows after the header: it ends with `break`; the calls it
made are one `batch.Put` for each row, in order, under the part of the row
before its first comma, each on the batch as the put before left it, and the
batch kept at the end is the one the last put leaves. -/
theorem loop_rows (env : KVEnv β) (sessionId podName tableName : String) (memory : Bool)
    (tail : String) (rows : List String) (st : LoopState β) (hh : st.readHeader = true)
    (b : β) (hb : st.batch = some b) :
    ∃ st', loop env sessionId podName tableName memory
        (rows.map (fun l => (String.mk (l.data ++ ['\n']), none)) ++ [(tail, some .EOF)]) st =
        .brk st' ∧
      st'.batch = some (batchAfter env memory b
        (rows.map (fun l => (keyOf (rowOf l), rowOf l)))) ∧
      st'.calls = st.calls ++ putCalls env memory b
        (rows.map (fun l => (keyOf (rowOf l), rowOf l))) := by
  induction rows generalizing st b with
  | nil =>
    refine ⟨st, ?_, hb, by simp [putCalls]⟩
    rw [List.map_nil, List.nil_append, loop, loopBody_EOF]
  | cons l rows ih =>
    obtain ⟨st1, h1, h2, h3, h4⟩ :=
      loopBody_row env sessionId podName tableName memory st hh b hb l
    obtain ⟨st', g1, g2, g3⟩ := ih st1 h2 _ h3
    refine ⟨st', ?_, ?_, ?_⟩
    · rw [List.map_cons, List.cons_append, loop_cons_of_cont _ _ _ _ _ _ _ _ _ h1]
      exact g1
    · rw [g2]
      rfl
    · rw [g3, h4, List.append_assoc]
      rfl

/-- The loop over a payload of lines each terminated by `\n`, when `api.KVBatch`
succeeds: it ends with `break`; the calls are `api.KVBatch` with the columns of
the header, then the puts of `putsOf` in order, the first on the batch
`api.KVBatch` returned and each later one on the batch as the put before left
it; the batch kept at the end is the one the last put leaves. -/
theorem loop_payload (env : KVEnv β) (sessionId podName tableName : String) (memory : Bool)
    (l0 : String) (rows : List String) (hl : ∀ l ∈ l0 :: rows, '\n' ∉ l.data) (b : β)
    (hb : env.KVBatch sessionId podName tableName (SplitComma (rowOf l0)) = .ok b)
    (st : LoopState β) (hh : st.readHeader = false) :
    ∃ st', loop env sessionId podName tableName memory (readAll (payloadOf (l0 :: rows))) st =
        .brk st' ∧
      st'.batch = some (batchAfter env memory b (putsOf env l0 rows)) ∧
      st'.calls = st.calls ++ (KVCall.KVBatch (SplitComma (rowOf l0)) ::
        putCalls env memory b (putsOf env l0 rows)) ∧
      st'.rowCount = st.rowCount + (rows.length + 1) ∧
      (Counted st → Counted st') := by
  have hr := readAll_payloadOf (l0 :: rows) hl []
  rw [List.append_nil, readAll_nil] at hr
  obtain ⟨st1, h1, h2, h3, h4⟩ :=
    loopBody_header env sessionId podName tableName memory st hh l0 b hb
  obtain ⟨st', g1, g2, g3⟩ :=
    loop_rows env sessionId podName tableName memory "" rows st1 h2 _ h3
  have hloop : loop env sessionId podName tableName memory (readAll (payloadOf (l0 :: rows))) st =
      .brk st' := by
    rw [hr, List.map_cons, List.cons_append, loop_cons_of_cont _ _ _ _ _ _ _ _ _ h1]
    exact g1
  have hpre : ∀ x ∈ (l0 :: rows).map (fun l => (String.mk (l.data ++ ['\n']), (none : Option ReadErr))),
      x.2 = none := by
    intro x hx
    obtain ⟨l, _, rfl⟩ := List.mem_map.1 hx
    rfl
  have hk := loop_brk env sessionId podName tableName memory "" _ hpre st st' (by rw [← hr]; exact hloop)
  refine ⟨st', hloop, ?_, ?_, ?_, hk.2⟩
  · rw [g2]
    rfl
  · rw [g3, h4, List.append_assoc]
    rfl
  · rw [hk.1]
    simp

/-- When each of the puts succeeds, the calls made are the puts, none with an
error. -/
theorem putCalls_of_putsSucceed (env : KVEnv β) (memory : Bool) (b : β)
    (kvs : List (String × String)) (h : putsSucceed env memory b kvs = true) :
    putCalls env memory b kvs = kvs.map (fun kv => KVCall.Put kv.1 kv.2 false) := by
  induction kvs generalizing b with
  | nil => rfl
  | cons kv kvs ih =>
    simp only [putsSucceed, Bool.and_eq_true] at h
    have h1 : (env.Put b kv.1 kv.2 false memory).1.isSome = false := by
      cases hp : (env.Put b kv.1 kv.2 false memory).1 with
      | none => rfl
      | some e => rw [hp] at h; simp at h
    simp only [putCalls, List.map_cons, h1, ih _ h.2]

/-- Puts that returned no error: none of them failed, each of them is a
success. -/
theorem counts_of_ok (kvs : List (String × String)) :
    failedPuts (kvs.map (fun kv => KVCall.Put kv.1 kv.2 false)) = 0 ∧
    okPuts (kvs.map (fun kv => KVCall.Put kv.1 kv.2 false)) = kvs.length := by
  induction kvs with
  | nil => exact ⟨rfl, rfl⟩
  | cons kv kvs ih => simp [failedPuts, okPuts, ih.1, ih.2]

/-- The calls of `putCalls` are puts of the given keys and values, in order. -/
theorem putCalls_withoutResult (env : KVEnv β) (memory : Bool) (b : β)
    (kvs : List (String × String)) :
    (putCalls env memory b kvs).map KVCall.withoutResult =
      kvs.map (fun kv => KVCall.Put kv.1 kv.2 false) := by
  induction kvs generalizing b with
  | nil => rfl
  | cons kv kvs ih => simp only [putCalls, List.map_cons, KVCall.withoutResult, ih]

/-- The reads of a payload: rows read without error, one for each `\n`, then
what is left with `io.EOF`. -/
theorem readAll_split (inBuf : List Char) :
    ∃ pre tail, readAll inBuf = pre ++ [(tail, some ReadErr.EOF)] ∧
      (∀ x ∈ pre, x.2 = none) ∧ pre.length = inBuf.count '\n' := by
  induction inBuf with
  | nil => exact ⟨[], "", rfl, by simp, rfl⟩
  | cons c cs ih =>
    obtain ⟨pre, tail, h1, h2, h3⟩ := ih
    unfold readAll at h1
    by_cases hc : c = '\n'
    · refine ⟨("\n", none) :: pre, tail, ?_, ?_, ?_⟩
      · unfold readAll
        simp only [readStrings, hc, if_true, List.cons_append]
        rw [h1]
      · intro x hx
        rcases List.mem_cons.1 hx with e | e
        · rw [e]
        · exact h2 x e
      · simp [hc, h3]
    · have hcount : (c :: cs).count '\n' = cs.count '\n' := by
        rw [List.count_cons]
        have : (c == '\n') = false := by simpa using hc
        simp [this]
      cases pre with
      | nil =>
        refine ⟨[], String.mk (c :: tail.data), ?_, by simp, ?_⟩
        · rw [List.nil_append] at h1
          have e1 := (List.cons.inj h1).1
          have e2 := (List.cons.inj h1).2
          unfold readAll
          simp only [readStrings, hc, if_false, e1, e2, List.nil_append]
        · rw [hcount, ← h3]
      | cons x pre =>
        have hx : x.2 = none := h2 x (by simp)
        refine ⟨(String.mk (c :: x.1.data), none) :: pre, tail, ?_, ?_, ?_⟩
        · rw [List.cons_append] at h1
          have e1 := (List.cons.inj h1).1
          have e2 := (List.cons.inj h1).2
          unfold readAll
          simp only [readStrings, hc, if_false, e1, e2, hx, List.cons_append]
        · intro y hy
          rcases List.mem_cons.1 hy with e | e
          · rw [e]
          · exact h2 y (by simp [e])
        · rw [hcount, ← h3]
          simp

theorem Counted_init : Counted (LoopState.init : LoopState β) :=
  ⟨rfl, rfl, rfl⟩

/-- When the goroutine resolves the promise, the loop ended with `break`, and
the message is the report of its totals. -/
theorem kvLoadCSVRun_resolve (env : KVEnv β) (sessionId podName tableName : String)
    (memory : Bool) (inBuf : List Char) (msg : String) (st : LoopState β)
    (h : kvLoadCSVRun env sessionId podName tableName memory inBuf = (.resolve msg, st)) :
    ∃ st', loop env sessionId podName tableName memory (readAll inBuf) LoopState.init =
        .brk st' ∧
      st = { st' with calls := st'.calls ++ [KVCall.Write] } ∧
      msg = reportMessage tableName st'.rowCount st'.successCount st'.failureCount := by
  unfold kvLoadCSVRun at h
  simp only at h
  split at h
  · simp at h
  · simp at h
  · simp at h
  next st' hloop =>
  split at h
  · simp at h
  · have h1 := (Prod.mk.inj h).1
    have h2 := (Prod.mk.inj h).2
    exact ⟨st', hloop, h2.symm, (Settled.resolve.inj h1).symm⟩

/-- Function `kvLoadCSV` on a payload of lines each terminated by `\n`, when
`api.KVBatch` succeeds: the puts of `putsOf` are made in order, the first on the
batch `api.KVBatch` returned, each later one on the batch as the put before
left it; `batch.Write` is called on the batch the last put leaves, and its
result settles the promise: rejected with its error, or resolved with the
number of lines, the number of puts without an error and the number of puts
with one. -/
theorem kvLoadCSV_lines (env : KVEnv β) (a0 a1 a2 a3 a4 : Value) (memory : Bool)
    (l0 : String) (rows : List String) (b : β)
    (hmem : a3.bool = some memory)
    (hbytes : a4.bytes = payloadOf (l0 :: rows))
    (hl : ∀ l ∈ l0 :: rows, '\n' ∉ l.data)
    (hbatch : env.KVBatch a0.str a1.str a2.str (SplitComma (rowOf l0)) = .ok b) :
    kvLoadCSV env [a0, a1, a2, a3, a4] =
      (match env.Write (some (batchAfter env memory b (putsOf env l0 rows))) "" with
        | some e => Settled.reject ("kv loadcsv: " ++ e)
        | none => Settled.resolve (reportMessage a2.str (rows.length + 1)
            (okPuts (putCalls env memory b (putsOf env l0 rows)))
            (failedPuts (putCalls env memory b (putsOf env l0 rows)))),
        KVCall.KVBatch (SplitComma (rowOf l0)) ::
          (putCalls env memory b (putsOf env l0 rows) ++ [KVCall.Write])) := by
  obtain ⟨st', h1, h2, h3, h4, h5⟩ := loop_payload env a0.str a1.str a2.str memory l0 rows hl b
    hbatch LoopState.init rfl
  obtain ⟨_, c2, c3⟩ := h5 Counted_init
  have hc : st'.calls = KVCall.KVBatch (SplitComma (rowOf l0)) ::
      putCalls env memory b (putsOf env l0 rows) := by
    rw [h3]
    rfl
  have hf : st'.failureCount = failedPuts (putCalls env memory b (putsOf env l0 rows)) := by
    rw [c2, hc]
    rfl
  have hs : st'.successCount = okPuts (putCalls env memory b (putsOf env l0 rows)) := by
    rw [c3, hc]
    rfl
  have hr : st'.rowCount = rows.length + 1 := by
    rw [h4]
    simp [LoopState.init]
  have hk : kvLoadCSV env [a0, a1, a2, a3, a4] =
      ((kvLoadCSVRun env a0.str a1.str a2.str memory a4.bytes).1,
        (kvLoadCSVRun env a0.str a1.str a2.str memory a4.bytes).2.calls) := by
    simp only [kvLoadCSV, hmem]
  rw [hk, hbytes]
  unfold kvLoadCSVRun
  simp only [h1, h2]
  split
  · next e he =>
    simp only [hc, List.cons_append]
  · next he =>
    simp only [hc, hf, hs, hr, List.cons_append]

/-! ## The claims on `kvLoadCSV` and `kvNewStore` -/

/-- C14 fails on the code: for the payload `"name,age\nalice,30\nbob,40\n"`,
with `api.KVBatch` and every `batch.Put` succeeding and `batch.Write` failing,
`kvLoadCSV` makes no report: the promise is rejected with the error of
`batch.Write`. -/
theorem kvLoadCSV_all_succeed_counterexample :
    memKVWriteFails.KVBatch "session" "pod" "t" (SplitComma (rowOf "name,age")) = .ok [] ∧
    putsSucceed memKVWriteFails false []
      (putsOf memKVWriteFails "name,age" ["alice,30", "bob,40"]) = true ∧
    payloadOf ["name,age", "alice,30", "bob,40"] = "name,age\nalice,30\nbob,40\n".data ∧
    kvLoadCSV memKVWriteFails (csvArgs "name,age\nalice,30\nbob,40\n") =
      (.reject "kv loadcsv: write failed",
        [.KVBatch ["name", "age"], .Put "__CSV_HEADER__" "name,age" false,
          .Put "alice" "alice,30" false, .Put "bob" "bob,40" false, .Write]) ∧
    ∀ total success failure : Nat,
      (kvLoadCSV memKVWriteFails (csvArgs "name,age\nalice,30\nbob,40\n")).1 ≠
        .resolve (reportMessage "t" total success failure) := by
  refine ⟨rfl, by decide, by decide, by decide, ?_⟩
  intro total success failure
  have h : (kvLoadCSV memKVWriteFails (csvArgs "name,age\nalice,30\nbob,40\n")).1 =
      .reject "kv loadcsv: write failed" := by decide
  rw [h]
  exact fun e => Settled.noConfusion e

/-- C14, amended: for a payload of `n ≥ 1` lines, each terminated by `\n`, when
`api.KVBatch` succeeds, every `batch.Put` of the run succeeds (the put of the
header on the batch `api.KVBatch` returned, the put of each later row on the
batch as the put before left it) and `batch.Write` succeeds on the batch the
last put leaves, `kvLoadCSV` resolves the promise with the report of total
`n`, success `n` and failure 0: the header row is counted as a success. -/
theorem kvLoadCSV_all_succeed (env : KVEnv β) (a0 a1 a2 a3 a4 : Value) (memory : Bool)
    (l0 : String) (rows : List String) (b : β)
    (hmem : a3.bool = some memory)
    (hbytes : a4.bytes = payloadOf (l0 :: rows))
    (hl : ∀ l ∈ l0 :: rows, '\n' ∉ l.data)
    (hbatch : env.KVBatch a0.str a1.str a2.str (SplitComma (rowOf l0)) = .ok b)
    (hput : putsSucceed env memory b (putsOf env l0 rows) = true)
    (hwrite : env.Write (some (batchAfter env memory b (putsOf env l0 rows))) "" = none) :
    (kvLoadCSV env [a0, a1, a2, a3, a4]).1 =
      .resolve (reportMessage a2.str (l0 :: rows).length (l0 :: rows).length 0) := by
  rw [kvLoadCSV_lines env a0 a1 a2 a3 a4 memory l0 rows b hmem hbytes hl hbatch, hwrite,
    putCalls_of_putsSucceed env memory b _ hput, (counts_of_ok _).1, (counts_of_ok _).2]
  simp [putsOf]

/-- C14 amended, on the payload of the spec: `"name,age\nalice,30\nbob,40\n"`
gives `rows=3, success=3, failure=0`; and on parameters whose `Put` fails on the
key `bob`, a payload without this key: two rows, two successes. -/
theorem kvLoadCSV_all_succeed_witness :
    (kvLoadCSV memKV (csvArgs "name,age\nalice,30\nbob,40\n")).1 =
      .resolve (reportMessage "t" 3 3 0) ∧
    reportMessage "t" 3 3 0 =
      "csv file loaded in to kv table (t) with total:3, success: 3, failure: 0 rows" ∧
    (kvLoadCSV memKVFailBob (csvArgs "name,age\nalice,30\n")).1 =
      .resolve (reportMessage "t" 2 2 0) :=
  ⟨kvLoadCSV_all_succeed memKV (jsString "session") (jsString "pod") (jsString "t")
      (jsBool false) (jsBytes "name,age\nalice,30\nbob,40\n") false "name,age"
      ["alice,30", "bob,40"] [] rfl (by decide) (by decide) rfl (by decide) rfl,
    by decide,
    kvLoadCSV_all_succeed memKVFailBob (jsString "session") (jsString "pod") (jsString "t")
      (jsBool false) (jsBytes "name,age\nalice,30\n") false "name,age"
      ["alice,30"] [] rfl (by decide) (by decide) rfl (by decide) rfl⟩

/-- C15: whenever `kvLoadCSV` reaches its final report, the totals reported
satisfy `rowCount = successCount + failureCount`, whatever the payload and
whichever calls of `batch.Put` fail: `rowCount` is the number of rows read, one
for each `\n` of the payload (a failing `Put` does not stop the later rows),
`failureCount` is the number of calls of `batch.Put` that failed and
`successCount` the number of those that succeeded. -/
theorem kvLoadCSV_totals (env : KVEnv β) (funcArgs : List Value) (msg : String)
    (calls : List KVCall) (h : kvLoadCSV env funcArgs = (.resolve msg, calls)) :
    ∃ (a0 a1 a2 a3 a4 : Value) (rowCount successCount failureCount : Nat),
      funcArgs = [a0, a1, a2, a3, a4] ∧
      msg = reportMessage a2.str rowCount successCount failureCount ∧
      rowCount = successCount + failureCount ∧
      rowCount = a4.bytes.count '\n' ∧
      failureCount = failedPuts calls ∧
      successCount = okPuts calls := by
  unfold kvLoadCSV at h
  split at h
  · next a0 a1 a2 a3 a4 =>
    split at h
    · simp at h
    · next memory hmem =>
      have h1 := (Prod.mk.inj h).1
      have h2 := (Prod.mk.inj h).2
      obtain ⟨st', g1, g2, g3⟩ := kvLoadCSVRun_resolve env a0.str a1.str a2.str memory a4.bytes
        msg _ (Prod.ext h1 rfl)
      obtain ⟨pre, tail, r1, r2, r3⟩ := readAll_split a4.bytes
      rw [r1] at g1
      have hk := loop_brk env a0.str a1.str a2.str memory tail pre r2 _ st' g1
      obtain ⟨c1, c2, c3⟩ := hk.2 Counted_init
      have hcalls : calls = st'.calls ++ [KVCall.Write] :=
        h2.symm.trans (congrArg LoopState.calls g2)
      refine ⟨a0, a1, a2, a3, a4, st'.rowCount, st'.successCount, st'.failureCount, rfl, g3,
        c1, ?_, ?_, ?_⟩
      · rw [hk.1, r3]
        simp [LoopState.init]
      · rw [hcalls, failedPuts_append, c2]
        simp [failedPuts]
      · rw [hcalls, okPuts_append, c3]
        simp [okPuts]
  · simp at h

/-- C15, on a run where the `Put` of the row `bob` fails: the rows after it are
still put, and the report is `total:4, success: 3, failure: 1`. -/
theorem kvLoadCSV_totals_witness :
    kvLoadCSV memKVFailBob (csvArgs "name,age\nalice,30\nbob,40\ncarol,50\n") =
      (.resolve "csv file loaded in to kv table (t) with total:4, success: 3, failure: 1 rows",
        [.KVBatch ["name", "age"], .Put "__CSV_HEADER__" "name,age" false,
          .Put "alice" "alice,30" false, .Put "bob" "bob,40" true,
          .Put "carol" "carol,50" false, .Write]) ∧
    ∃ (a0 a1 a2 a3 a4 : Value) (rowCount successCount failureCount : Nat),
      csvArgs "name,age\nalice,30\nbob,40\ncarol,50\n" = [a0, a1, a2, a3, a4] ∧
      "csv file loaded in to kv table (t) with total:4, success: 3, failure: 1 rows" =
        reportMessage a2.str rowCount successCount failureCount ∧
      rowCount = successCount + failureCount ∧
      rowCount = a4.bytes.count '\n' ∧
      failureCount = failedPuts [.KVBatch ["name", "age"],
        .Put "__CSV_HEADER__" "name,age" false, .Put "alice" "alice,30" false,
        .Put "bob" "bob,40" true, .Put "carol" "carol,50" false, .Write] ∧
      successCount = okPuts [.KVBatch ["name", "age"],
        .Put "__CSV_HEADER__" "name,age" false, .Put "alice" "alice,30" false,
        .Put "bob" "bob,40" true, .Put "carol" "carol,50" false, .Write] :=
  ⟨by decide,
    kvLoadCSV_totals memKVFailBob (csvArgs "name,age\nalice,30\nbob,40\ncarol,50\n") _ _
      (by decide)⟩

/-- C16: for a payload of lines `l0, l1, ..., lk`, each terminated by `\n`, when
`api.KVBatch` succeeds for the columns got by splitting the stripped `l0` on
`,`, `kvLoadCSV` makes the batch puts in this order: first the stripped `l0`
under `CSVHeaderKey`, on the batch `api.KVBatch` returned for these columns;
then for each later line the stripped line under its part before the first
comma (the whole of it when it has no comma), each put on the batch as the put
before left it.  These are all its calls, between the one `api.KVBatch` and the
one `batch.Write`; `batch.Write` is called on the batch the last put leaves and
settles the promise; the report counts the puts that returned no error and
those that returned one.  A line is stripped of its final `\n` and then of one
trailing `\r`. -/
theorem kvLoadCSV_puts (env : KVEnv β) (a0 a1 a2 a3 a4 : Value) (memory : Bool)
    (l0 : String) (rows : List String) (b : β)
    (hmem : a3.bool = some memory)
    (hbytes : a4.bytes = payloadOf (l0 :: rows))
    (hl : ∀ l ∈ l0 :: rows, '\n' ∉ l.data)
    (hbatch : env.KVBatch a0.str a1.str a2.str (SplitComma (rowOf l0)) = .ok b) :
    kvLoadCSV env [a0, a1, a2, a3, a4] =
      (match env.Write (some (batchAfter env memory b
          ((env.CSVHeaderKey, rowOf l0) :: rows.map (fun l => (keyOf (rowOf l), rowOf l))))) ""
        with
        | some e => Settled.reject ("kv loadcsv: " ++ e)
        | none => Settled.resolve (reportMessage a2.str (rows.length + 1)
            (okPuts (putCalls env memory b
              ((env.CSVHeaderKey, rowOf l0) :: rows.map (fun l => (keyOf (rowOf l), rowOf l)))))
            (failedPuts (putCalls env memory b
              ((env.CSVHeaderKey, rowOf l0) :: rows.map (fun l => (keyOf (rowOf l), rowOf l)))))),
        KVCall.KVBatch (SplitComma (rowOf l0)) ::
          (putCalls env memory b
            ((env.CSVHeaderKey, rowOf l0) :: rows.map (fun l => (keyOf (rowOf l), rowOf l))) ++
            [KVCall.Write])) ∧
    (putCalls env memory b
        ((env.CSVHeaderKey, rowOf l0) :: rows.map (fun l => (keyOf (rowOf l), rowOf l)))).map
        KVCall.withoutResult =
      KVCall.Put env.CSVHeaderKey (rowOf l0) false ::
        rows.map (fun l => KVCall.Put (keyOf (rowOf l)) (rowOf l) false) :=
  ⟨kvLoadCSV_lines env a0 a1 a2 a3 a4 memory l0 rows b hmem hbytes hl hbatch, by
    rw [putCalls_withoutResult]
    simp⟩

/-- C16, on a run: the payload `"name,age\r\nalice,30\r\nbob\r\n"`, on parameters
whose `Put` fails on the key `bob` and whose `Write` succeeds only on the batch
that holds, in this order, the header and the row of `alice`. -/
theorem kvLoadCSV_puts_witness :
    (kvLoadCSV memKVStrict (csvArgs "name,age\x0d\nalice,30\x0d\nbob\x0d\n") =
      (match memKVStrict.Write (some (batchAfter memKVStrict false []
          ((memKVStrict.CSVHeaderKey, rowOf "name,age\x0d") ::
            ["alice,30\x0d", "bob\x0d"].map (fun l => (keyOf (rowOf l), rowOf l))))) ""
        with
        | some e => Settled.reject ("kv loadcsv: " ++ e)
        | none => Settled.resolve (reportMessage "t" (["alice,30\x0d", "bob\x0d"].length + 1)
            (okPuts (putCalls memKVStrict false []
              ((memKVStrict.CSVHeaderKey, rowOf "name,age\x0d") ::
                ["alice,30\x0d", "bob\x0d"].map (fun l => (keyOf (rowOf l), rowOf l)))))
            (failedPuts (putCalls memKVStrict false []
              ((memKVStrict.CSVHeaderKey, rowOf "name,age\x0d") ::
                ["alice,30\x0d", "bob\x0d"].map (fun l => (keyOf (rowOf l), rowOf l)))))),
        KVCall.KVBatch (SplitComma (rowOf "name,age\x0d")) ::
          (putCalls memKVStrict false []
            ((memKVStrict.CSVHeaderKey, rowOf "name,age\x0d") ::
              ["alice,30\x0d", "bob\x0d"].map (fun l => (keyOf (rowOf l), rowOf l))) ++
            [KVCall.Write])) ∧
      (putCalls memKVStrict false []
          ((memKVStrict.CSVHeaderKey, rowOf "name,age\x0d") ::
            ["alice,30\x0d", "bob\x0d"].map (fun l => (keyOf (rowOf l), rowOf l)))).map
          KVCall.withoutResult =
        KVCall.Put memKVStrict.CSVHeaderKey (rowOf "name,age\x0d") false ::
          ["alice,30\x0d", "bob\x0d"].map
            (fun l => KVCall.Put (keyOf (rowOf l)) (rowOf l) false)) ∧
    batchAfter memKVStrict false []
        ((memKVStrict.CSVHeaderKey, rowOf "name,age\x0d") ::
          ["alice,30\x0d", "bob\x0d"].map (fun l => (keyOf (rowOf l), rowOf l))) =
      [("__CSV_HEADER__", "name,age"), ("alice", "alice,30")] ∧
    kvLoadCSV memKVStrict (csvArgs "name,age\x0d\nalice,30\x0d\nbob\x0d\n") =
      (.resolve "csv file loaded in to kv table (t) with total:3, success: 2, failure: 1 rows",
        [.KVBatch ["name", "age"], .Put "__CSV_HEADER__" "name,age" false,
          .Put "alice" "alice,30" false, .Put "bob" "bob" true, .Write]) :=
  ⟨kvLoadCSV_puts memKVStrict (jsString "session") (jsString "pod") (jsString "t")
      (jsBool false) (jsBytes "name,age\x0d\nalice,30\x0d\nbob\x0d\n") false "name,age\x0d"
      ["alice,30\x0d", "bob\x0d"] [] rfl (by decide) (by decide) rfl,
    by decide, by decide⟩

/-- C17 fails on the code: for the payload `"name,age\nalice,30\nbob,40"`, whose
last row is not followed by `\n`, `reader.ReadString` returns that row with
`io.EOF` and the loop breaks before it counts or puts it: the report is
`total:2`, and no `batch.Put` is made for `bob`. -/
theorem kvLoadCSV_drops_last_row :
    kvLoadCSV memKV (csvArgs "name,age\nalice,30\nbob,40") =
      (.resolve "csv file loaded in to kv table (t) with total:2, success: 2, failure: 0 rows",
        [.KVBatch ["name", "age"], .Put "__CSV_HEADER__" "name,age" false,
          .Put "alice" "alice,30" false, .Write]) ∧
    readAll "name,age\nalice,30\nbob,40".data =
      [("name,age\n", none), ("alice,30\n", none), ("bob,40", some .EOF)] := by
  decide

/-- C20 fails on the code: for the index type `bytes` the arm of the switch is
empty, so no rejection is made; `api.KVCreate` is called with the zero value of
`collection.IndexType`, and the promise is settled by its result. -/
theorem kvNewStore_bytes (env : KVEnv β) (a0 a1 a2 : Value) :
    (kvNewStore env [a0, a1, a2, jsString "bytes"]).2 = [(a0.str, a1.str, a2.str, 0)] ∧
    (env.KVCreate a0.str a1.str a2.str 0 = none →
      (kvNewStore env [a0, a1, a2, jsString "bytes"]).1 = .resolve "kv store created") ∧
    (∀ e, env.KVCreate a0.str a1.str a2.str 0 = some e →
      (kvNewStore env [a0, a1, a2, jsString "bytes"]).1 =
        .reject ("kvNewStore failed : " ++ e)) ∧
    (kvNewStore env [a0, a1, a2, jsString "other"]) =
      (.reject "invalid indexType. only string and number are allowed", []) := by
  have hk : kvNewStore env [a0, a1, a2, jsString "bytes"] =
      match env.KVCreate a0.str a1.str a2.str 0 with
      | some e => (.reject ("kvNewStore failed : " ++ e), [(a0.str, a1.str, a2.str, 0)])
      | none => (.resolve "kv store created", [(a0.str, a1.str, a2.str, 0)]) := rfl
  refine ⟨?_, ?_, ?_, rfl⟩
  · rw [hk]
    split <;> rfl
  · intro h
    rw [hk, h]
  · intro e h
    rw [hk, h]

end wasm

namespace dfs

variable {υ π ς κ β : Type}

/-! ## The claim on the document controllers -/

/-- C18: every document controller does its checks before acting: it returns
`ErrUserNotLoggedIn` when no user is logged in under `sessionId`, whatever the
state of the pod; otherwise `ErrPodNotOpen` when the pod is not open for that
user; and in both cases the document store is not invoked (no call on it, its
state unchanged). -/
theorem doc_controllers_check_first (env : DocEnv υ π ς κ β) (s : ς)
    (sessionId podName name expr id podFileWithPath : String)
    (indexes : List (String × Nat)) (mutable : Bool) (value doc : List Nat) (limit : Int)
    (docBatch : Option β) :
    ChecksFirst env s sessionId podName ()
      (DocCreate env s sessionId podName name indexes mutable) ∧
    ChecksFirst env s sessionId podName () (DocOpen env s sessionId podName name) ∧
    ChecksFirst env s sessionId podName () (DocDelete env s sessionId podName name) ∧
    ChecksFirst env s sessionId podName none (DocList env s sessionId podName) ∧
    ChecksFirst env s sessionId podName (name, 0)
      (DocCount env s sessionId podName name expr) ∧
    ChecksFirst env s sessionId podName () (DocPut env s sessionId podName name value) ∧
    ChecksFirst env s sessionId podName none (DocGet env s sessionId podName name id) ∧
    ChecksFirst env s sessionId podName () (DocDel env s sessionId podName name id) ∧
    ChecksFirst env s sessionId podName none
      (DocFind env s sessionId podName name expr limit) ∧
    ChecksFirst env s sessionId podName none (DocBatch env s sessionId podName name) ∧
    ChecksFirst env s sessionId podName ()
      (DocBatchPut env s sessionId podName doc docBatch) ∧
    ChecksFirst env s sessionId podName ()
      (DocBatchWrite env s sessionId podName docBatch) ∧
    ChecksFirst env s sessionId podName ()
      (DocIndexJson env s sessionId podName name podFileWithPath) := by
  refine ⟨?_, ?_, ?_, ?_, ?_, ?_, ?_, ?_, ?_, ?_, ?_, ?_, ?_⟩
  · exact ⟨fun h => by simp [DocCreate, h], fun ui h1 h2 => by simp [DocCreate, h1, h2]⟩
  · exact ⟨fun h => by simp [DocOpen, h], fun ui h1 h2 => by simp [DocOpen, h1, h2]⟩
  · exact ⟨fun h => by simp [DocDelete, h], fun ui h1 h2 => by simp [DocDelete, h1, h2]⟩
  · exact ⟨fun h => by simp [DocList, h], fun ui h1 h2 => by simp [DocList, h1, h2]⟩
  · exact ⟨fun h => by simp [DocCount, h], fun ui h1 h2 => by simp [DocCount, h1, h2]⟩
  · exact ⟨fun h => by simp [DocPut, h], fun ui h1 h2 => by simp [DocPut, h1, h2]⟩
  · exact ⟨fun h => by simp [DocGet, h], fun ui h1 h2 => by simp [DocGet, h1, h2]⟩
  · exact ⟨fun h => by simp [DocDel, h], fun ui h1 h2 => by simp [DocDel, h1, h2]⟩
  · exact ⟨fun h => by simp [DocFind, h], fun ui h1 h2 => by simp [DocFind, h1, h2]⟩
  · exact ⟨fun h => by simp [DocBatch, h], fun ui h1 h2 => by simp [DocBatch, h1, h2]⟩
  · exact ⟨fun h => by simp [DocBatchPut, h], fun ui h1 h2 => by simp [DocBatchPut, h1, h2]⟩
  · exact ⟨fun h => by simp [DocBatchWrite, h],
      fun ui h1 h2 => by simp [DocBatchWrite, h1, h2]⟩
  · exact ⟨fun h => by simp [DocIndexJson, h],
      fun ui h1 h2 => by simp [DocIndexJson, h1, h2]⟩

/-- C18, on a run: under the session `s2`, which is not that of a logged-in
user, `DocCreate` and `DocIndexJson` return `ErrUserNotLoggedIn`, also for the
pod `pod2` that is not open; under the session `s1` with the pod `pod2` they
return `ErrPodNotOpen`; the document store is not invoked.  With the pod `pod1`
open the store is invoked. -/
theorem doc_controllers_check_first_witness :
    DocCreate memDfs 0 "s2" "pod2" "t" [] false = ⟨(), some .ErrUserNotLoggedIn, 0, []⟩ ∧
    DocCreate memDfs 0 "s1" "pod2" "t" [] false = ⟨(), some .ErrPodNotOpen, 0, []⟩ ∧
    DocIndexJson memDfs 0 "s2" "pod2" "t" "/f.json" = ⟨(), some .ErrUserNotLoggedIn, 0, []⟩ ∧
    DocIndexJson memDfs 0 "s1" "pod2" "t" "/f.json" = ⟨(), some .ErrPodNotOpen, 0, []⟩ ∧
    DocCreate memDfs 0 "s1" "pod1" "t" [] false =
      ⟨(), none, 1, [.CreateDocumentDB "t" "pw" [] false]⟩ :=
  ⟨(doc_controllers_check_first memDfs 0 "s2" "pod2" "t" "" "" "/f.json" [] false [] [] 0
      none).1.1 rfl,
    (doc_controllers_check_first memDfs 0 "s1" "pod2" "t" "" "" "/f.json" [] false [] [] 0
      none).1.2 () rfl (by decide),
    (doc_controllers_check_first memDfs 0 "s2" "pod2" "t" "" "" "/f.json" [] false [] [] 0
      none).2.2.2.2.2.2.2.2.2.2.2.2.1 rfl,
    (doc_controllers_check_first memDfs 0 "s1" "pod2" "t" "" "" "/f.json" [] false [] [] 0
      none).2.2.2.2.2.2.2.2.2.2.2.2.2 () rfl (by decide),
    rfl⟩

end dfs

namespace api

/-! ## The claim on `PodOpenHandler` -/

/-- The statuses `PodOpenHandler` writes are 200, 400, 404 and 500. -/
theorem PodOpenHandler_status (env : PodEnv) (r : Request) :
    (PodOpenHandler env r).status = 200 ∨ (PodOpenHandler env r).status = 400 ∨
    (PodOpenHandler env r).status = 404 ∨ (PodOpenHandler env r).status = 500 := by
  unfold PodOpenHandler
  repeat' split
  all_goals simp [OK, BadRequest, NotFound, InternalServerError]

/-- C19 fails on the code: for a well-formed request (JSON content type, a pod
name, a session id in the cookie) whose session is not that of a logged-in
user, `OpenPod` fails with `ErrUserNotLoggedIn` and the handler answers with
`jsonhttp.NotFound`, status 404, which is none of the documented 200, 400 and
500; the same for `ErrInvalidPodName`. -/
theorem PodOpenHandler_not_found :
    PodOpenHandler memApi ⟨"application/json", .ok "pod1", .ok "s2"⟩ =
      ⟨404, "pod open: user not logged in"⟩ ∧
    PodOpenHandler memApi ⟨"application/json", .ok "pod2", .ok "s1"⟩ =
      ⟨404, "pod open: invalid pod name"⟩ ∧
    PodOpenHandler memApi ⟨"application/json", .ok "pod1", .ok "s1"⟩ =
      ⟨200, "pod opened successfully"⟩ := by
  decide

end api

namespace lookup

/-! ## The claim on the interval of the last epoch -/

/-- The base of an epoch is a multiple of `2 ^ Level`, for every time. -/
theorem Base_mod_two_pow (last : Epoch) : last.Base % 2 ^ last.Level = 0 := by
  apply Nat.eq_of_testBit_eq
  intro j
  unfold Epoch.Base
  rw [Nat.testBit_mod_two_pow, testBit_getBaseTime, Nat.zero_testBit]
  by_cases h : j < last.Level
  · have : ¬ last.Level ≤ j := by omega
    simp [this]
  · simp [h]

/-- Two numbers with the same quotient by `2 ^ n` have the same bits from
position `n` on. -/
theorem xor_testBit_of_div_eq (a b n j : Nat) (h : a / 2 ^ n = b / 2 ^ n) (hj : n ≤ j) :
    (a ^^^ b).testBit j = false := by
  have ha : a.testBit j = (a / 2 ^ n).testBit (j - n) := by
    rw [← Nat.shiftRight_eq_div_pow, Nat.testBit_shiftRight]
    congr 1
    omega
  have hb : b.testBit j = (b / 2 ^ n).testBit (j - n) := by
    rw [← Nat.shiftRight_eq_div_pow, Nat.testBit_shiftRight]
    congr 1
    omega
  rw [Nat.testBit_xor, ha, hb, h]
  simp

/-- Two numbers whose bits agree from position `n` on have the same quotient by
`2 ^ n`. -/
theorem div_eq_of_xor_testBit (a b n : Nat) (h : ∀ j, n ≤ j → (a ^^^ b).testBit j = false) :
    a / 2 ^ n = b / 2 ^ n := by
  apply Nat.eq_of_testBit_eq
  intro j
  rw [← Nat.shiftRight_eq_div_pow, ← Nat.shiftRight_eq_div_pow, Nat.testBit_shiftRight,
    Nat.testBit_shiftRight]
  have hb := h (n + j) (by omega)
  rw [Nat.testBit_xor] at hb
  simpa using hb

/-- The time `now` is in the interval of the last epoch exactly when it has the
quotient of the base by `2 ^ Level`. -/
theorem in_interval_iff_div_eq (last : Epoch) (now : Nat) :
    (last.Base ≤ now ∧ now < last.Base + 2 ^ last.Level) ↔
      last.Base / 2 ^ last.Level = now / 2 ^ last.Level := by
  have hm := Base_mod_two_pow last
  have hp : 0 < 2 ^ last.Level := Nat.two_pow_pos _
  have e1 := Nat.div_add_mod last.Base (2 ^ last.Level)
  have e2 := Nat.div_add_mod now (2 ^ last.Level)
  have l2 := Nat.mod_lt now hp
  rw [hm, Nat.add_zero] at e1
  constructor
  · intro ⟨h1, h2⟩
    rw [← e1] at h1 h2
    have hle : last.Base / 2 ^ last.Level ≤ now / 2 ^ last.Level := by
      rw [Nat.le_div_iff_mul_le hp, Nat.mul_comm]
      exact h1
    have hlt : now / 2 ^ last.Level < last.Base / 2 ^ last.Level + 1 := by
      rw [Nat.div_lt_iff_lt_mul hp, Nat.add_mul, Nat.one_mul, Nat.mul_comm]
      exact h2
    omega
  · intro h
    rw [← h] at e2
    omega

/-- C24: for a last epoch of level 1 to 31 and every `now`, `GetNextLevel`
returns `Level - 1` if and only if `now` lies in the interval of the last
epoch, `Base ≤ now < Base + 2 ^ Level`; for every `now` outside that interval
the level returned is at least `Level`. -/
theorem GetNextLevel_eq_pred_iff (last : Epoch) (now : Nat) (h1 : 1 ≤ last.Level)
    (h2 : last.Level ≤ 31) :
    (GetNextLevel last now = last.Level - 1 ↔
      (last.Base ≤ now ∧ now < last.Base + 2 ^ last.Level)) ∧
    (¬ (last.Base ≤ now ∧ now < last.Base + 2 ^ last.Level) →
      last.Level ≤ GetNextLevel last now) := by
  have hpred := le_GetNextLevel_of_testBit last now (last.Level - 1)
    (mixOf_testBit_pred last now h1 h2)
  have hmin : min (last.Level - 1) 31 = last.Level - 1 := Nat.min_eq_left (by omega)
  rw [hmin] at hpred
  have hiff : GetNextLevel last now = last.Level - 1 ↔
      (last.Base ≤ now ∧ now < last.Base + 2 ^ last.Level) := by
    rw [in_interval_iff_div_eq]
    constructor
    · intro heq
      apply div_eq_of_xor_testBit
      intro j hj
      by_contra hb
      have hb1 : (last.Base ^^^ now).testBit j = true := by simpa using hb
      have hb2 : (mixOf last now).testBit j = true := by
        rw [mixOf_testBit_of_ne last now j h1 h2 (by omega), ← Nat.testBit_xor]
        exact hb1
      have hle := le_GetNextLevel_of_testBit last now j hb2
      have : last.Level ≤ min j 31 := Nat.le_min.2 ⟨hj, h2⟩
      omega
    · intro hdiv
      have hbits : ∀ j, last.Level ≤ j → (mixOf last now).testBit j = false := by
        intro j hj
        rw [mixOf_testBit_of_ne last now j h1 h2 (by omega), ← Nat.testBit_xor]
        exact xor_testBit_of_div_eq _ _ _ j hdiv hj
      have hlt : mixOf last now < 2 ^ last.Level := Nat.lt_pow_two_of_testBit _ hbits
      have hle32 : ¬ mixOf last now > 2 ^ 32 - 1 := by
        have : (2 : Nat) ^ last.Level ≤ 2 ^ 31 := Nat.pow_le_pow_right (by decide) h2
        have : (2 : Nat) ^ 31 ≤ 2 ^ 32 - 1 := by decide
        omega
      have hne : mixOf last now ≠ 0 := by
        intro h0
        have hb := mixOf_testBit_pred last now h1 h2
        rw [h0, Nat.zero_testBit] at hb
        exact Bool.false_ne_true hb
      have htop := (GetNextLevel_highest last now hle32 hne).1
      have hltL : GetNextLevel last now < last.Level := by
        by_contra hc
        rw [hbits _ (by omega)] at htop
        exact Bool.false_ne_true htop
      omega
  refine ⟨hiff, ?_⟩
  intro hout
  have hne : GetNextLevel last now ≠ last.Level - 1 := fun e => hout (hiff.1 e)
  omega

/-- C24, on a run: for the last epoch of time 1000 and level 5, base 992, the
time 1010 is in the interval and gives level 4; the time 1024 is outside and
gives level 10. -/
theorem GetNextLevel_eq_pred_iff_witness :
    (GetNextLevel { Time := 1000, Level := 5 } 1010 = 5 - 1 ↔
      ((Epoch.Base { Time := 1000, Level := 5 }) ≤ 1010 ∧
        1010 < (Epoch.Base { Time := 1000, Level := 5 }) + 2 ^ 5)) ∧
    GetNextLevel { Time := 1000, Level := 5 } 1010 = 4 ∧
    Epoch.Base { Time := 1000, Level := 5 } = 992 ∧
    GetNextLevel { Time := 1000, Level := 5 } 1024 = 10 :=
  ⟨(GetNextLevel_eq_pred_iff { Time := 1000, Level := 5 } 1010 (by decide) (by decide)).1,
    by decide, by decide, by decide⟩

end lookup

namespace wasm

/-! ## The claims on `docNewStore` and `fileReceiveInfo` -/

/-- C21 fails on the code: for the index list `name=string,raw=bytes` the arm
`case "bytes":` of the switch is empty, so nothing is put in the map for the
column `raw`: `api.DocCreate` is called with a map whose only key is `name`.
For `raw=bytes` alone the map is empty.  The columns of the four other types
are all in the map. -/
theorem docNewStore_bytes_dropped (env : DocStoreEnv) (a0 a1 a2 : Value) (mutable : Bool) :
    (docNewStore env
        [a0, a1, a2, jsString "name=string,raw=bytes", jsBool mutable]).2 =
      [⟨a0.str, a1.str, a2.str, [("name", env.StringIndex)], mutable⟩] ∧
    (docNewStore env [a0, a1, a2, jsString "raw=bytes", jsBool mutable]).2 =
      [⟨a0.str, a1.str, a2.str, [], mutable⟩] ∧
    (docNewStore env
        [a0, a1, a2, jsString "name=string,age=number,tags=map,ids=list", jsBool mutable]).2 =
      [⟨a0.str, a1.str, a2.str,
        [("name", env.StringIndex), ("age", env.NumberIndex), ("tags", env.MapIndex),
          ("ids", env.ListIndex)], mutable⟩] ∧
    docNewStore env [a0, a1, a2, jsString "raw=blob", jsBool mutable] =
      (.reject "invalid indexType", []) := by
  have h1 : docNewStore env
      [a0, a1, a2, jsString "name=string,raw=bytes", jsBool mutable] =
      match env.DocCreate a0.str a1.str a2.str [("name", env.StringIndex)] mutable with
      | some e => (.reject ("docNewStore failed : " ++ e),
          [⟨a0.str, a1.str, a2.str, [("name", env.StringIndex)], mutable⟩])
      | none => (.resolve "doc store created",
          [⟨a0.str, a1.str, a2.str, [("name", env.StringIndex)], mutable⟩]) := rfl
  have h2 : docNewStore env [a0, a1, a2, jsString "raw=bytes", jsBool mutable] =
      match env.DocCreate a0.str a1.str a2.str [] mutable with
      | some e => (.reject ("docNewStore failed : " ++ e),
          [⟨a0.str, a1.str, a2.str, [], mutable⟩])
      | none => (.resolve "doc store created", [⟨a0.str, a1.str, a2.str, [], mutable⟩]) := rfl
  have h3 : docNewStore env
      [a0, a1, a2, jsString "name=string,age=number,tags=map,ids=list", jsBool mutable] =
      match env.DocCreate a0.str a1.str a2.str
        [("name", env.StringIndex), ("age", env.NumberIndex), ("tags", env.MapIndex),
          ("ids", env.ListIndex)] mutable with
      | some e => (.reject ("docNewStore failed : " ++ e),
          [⟨a0.str, a1.str, a2.str,
            [("name", env.StringIndex), ("age", env.NumberIndex), ("tags", env.MapIndex),
              ("ids", env.ListIndex)], mutable⟩])
      | none => (.resolve "doc store created",
          [⟨a0.str, a1.str, a2.str,
            [("name", env.StringIndex), ("age", env.NumberIndex), ("tags", env.MapIndex),
              ("ids", env.ListIndex)], mutable⟩]) := rfl
  refine ⟨?_, ?_, ?_, rfl⟩
  · rw [h1]
    split <;> rfl
  · rw [h2]
    split <;> rfl
  · rw [h3]
    split <;> rfl

/-- C22 fails on the code: called with exactly two arguments, `fileReceiveInfo`
reads `funcArgs[0]` and then `funcArgs[2]`, an index outside a slice of length
2, and panics; the sharing reference, argument 1, is never read.  The function
`podReceiveInfo` next to it, with the same two arguments, reads the indices 0
and 1. -/
theorem fileReceiveInfo_index_out_of_range {ρ : Type} (env : ReceiveEnv ρ) (a0 a1 : Value) :
    fileReceiveInfo env [a0, a1] = (.panicked, [0, 2]) ∧
    ¬ (2 < [a0, a1].length) ∧
    (podReceiveInfo env [a0, a1]).2 = [0, 1] := by
  refine ⟨rfl, by simp, ?_⟩
  unfold podReceiveInfo
  simp only [List.length_cons, List.length_nil, ne_eq, not_true_eq_false, if_false]
  repeat' split
  all_goals first | rfl | simp_all

end wasm

namespace user

/-! ## The claim on the map of users -/

theorem nameLoop_iff (userName : String) (m : List (String × Info)) :
    nameLoop userName m = true ↔ ∃ e ∈ m, e.2.name = userName := by
  induction m with
  | nil => simp [nameLoop]
  | cons e m ih =>
    obtain ⟨k, ui⟩ := e
    by_cases h : ui.name = userName
    · simp [nameLoop, h]
    · simp [nameLoop, h, ih]

theorem mem_userMapSet (m : List (String × Info)) (key : String) (info : Info) :
    (key, info) ∈ userMapSet m key info := by
  induction m with
  | nil => simp [userMapSet]
  | cons e m ih =>
    obtain ⟨k, v⟩ := e
    by_cases h : k = key
    · simp [userMapSet, h]
    · simp [userMapSet, h, ih]

/-- C23: for every state of the map and every name `n`, `isUserNameInMap n` is
true if and only if some session stored in `userMap` has the name `n`,
whatever the order in which the map is visited; and after `addUserToMap info`,
`isUserNameInMap info.name` is true. -/
theorem isUserNameInMap_iff (u : Users) (n : String) :
    (u.isUserNameInMap n = true ↔ ∃ e ∈ u.userMap, e.2.name = n) ∧
    (∀ m : List (String × Info), m.Perm u.userMap →
      Users.isUserNameInMap { userMap := m } n = u.isUserNameInMap n) ∧
    (∀ info : Info, (u.addUserToMap info).isUserNameInMap info.name = true) := by
  refine ⟨nameLoop_iff n u.userMap, ?_, ?_⟩
  · intro m hm
    have h1 := nameLoop_iff n m
    have h2 := nameLoop_iff n u.userMap
    have h3 : (∃ e ∈ m, e.2.name = n) ↔ ∃ e ∈ u.userMap, e.2.name = n :=
      ⟨fun ⟨e, he, hn⟩ => ⟨e, hm.mem_iff.1 he, hn⟩, fun ⟨e, he, hn⟩ => ⟨e, hm.mem_iff.2 he, hn⟩⟩
    unfold Users.isUserNameInMap
    cases ha : nameLoop n m <;> cases hb : nameLoop n u.userMap
    · rfl
    · exact absurd (h1.2 (h3.2 (h2.1 hb))) (by simp [ha])
    · exact absurd (h2.2 (h3.1 (h1.1 ha))) (by simp [hb])
    · rfl
  · intro info
    exact (nameLoop_iff info.name _).2 ⟨(info.sessionId, info), mem_userMapSet _ _ _, rfl⟩

/-- C23, on a run: after the session of `user1` is added to the map that holds
the session of `user0`, `user1` and `user0` are in the map by name and `user2`
is not. -/
theorem isUserNameInMap_iff_witness :
    ((NewUsers.addUserToMap ⟨"user0", "sid0"⟩).addUserToMap ⟨"user1", "sid1"⟩).isUserNameInMap
      "user1" = true ∧
    ((NewUsers.addUserToMap ⟨"user0", "sid0"⟩).addUserToMap ⟨"user1", "sid1"⟩).isUserNameInMap
      "user0" = true ∧
    ((NewUsers.addUserToMap ⟨"user0", "sid0"⟩).addUserToMap ⟨"user1", "sid1"⟩).isUserNameInMap
      "user2" = false :=
  ⟨(isUserNameInMap_iff (NewUsers.addUserToMap ⟨"user0", "sid0"⟩) "user1").2.2 ⟨"user1", "sid1"⟩,
    by decide, by decide⟩

end user

